import Mathlib

/-!
Verification of the sfjs client library (Standard Notes JavaScript core).

The development shallowly embeds the parts of the source that the claims
touch:

1. the protocol codec (SFItemTransformer.encryptItem, decryptItem,
   encryptionComponentsFromString, SFAbstractCrypto.decryptText and the
   key-derivation chain generateSalt, generateSymmetricKeyPair,
   computeEncryptionKeysForUser);
2. the item model and model store (SFItem.setDirty, relationship methods,
   SFModelManager.mapResponseItemsToLocalModelsOmittingFields,
   resolveReferencesForItem, popMissedReferenceStructsForObjects,
   alternateUUIDForItem, setItemToBeDeleted);
3. the sync engine dirty-count protocol (SFSyncManager.sync, the in-flight
   dirtyCount reset and the onSyncSuccess clearing step);
4. the singleton resolver (SFSingletonManager.resolveSingletons).

JavaScript strings are embedded as lists of characters.  External
cryptographic primitives (CryptoJS AES, HMAC, SHA-256, PBKDF2, base64 and
the JSON codec) are not part of the repository; they are abstracted as a
structure of functions, and theorems assume only standard facts about them
(round-trip of the cipher, determinism, absence of the colon separator in
their textual output).  Randomness consumed by the source (item keys, IVs)
is passed in as explicit parameters.
-/

namespace SFJS

/-- JavaScript strings are modelled as lists of characters. -/
abbrev Str := List Char

/-- Version tag of the plaintext (unencrypted base64 JSON) envelope. -/
def v000 : Str := ['0', '0', '0']

/-- Version tag of the legacy 001 protocol. -/
def v001 : Str := ['0', '0', '1']

/-- Version tag of the 002 protocol. -/
def v002 : Str := ['0', '0', '2']

/-- Version tag of the 003 protocol. -/
def v003 : Str := ['0', '0', '3']

/-- JavaScript Array.prototype.join with a colon separator.  Elements that
are undefined are rendered as the empty string by join; callers pass the
already-defaulted strings. -/
def joinColon : List Str → Str
  | [] => []
  | [p] => p
  | p :: rest => p ++ ':' :: joinColon rest

/-- JavaScript String.prototype.split on a single colon.  Splitting the
empty string yields one empty field, exactly as in JavaScript. -/
def splitColon : Str → List Str
  | [] => [[]]
  | c :: rest =>
    if c = ':' then [] :: splitColon rest
    else
      match splitColon rest with
      | s :: ss => (c :: s) :: ss
      | [] => [[c]]

theorem splitColon_ne_nil (s : Str) : splitColon s ≠ [] := by
  induction s with
  | nil => simp [splitColon]
  | cons c rest ih =>
    simp only [splitColon]
    split
    · simp
    · cases h : splitColon rest with
      | nil => simp
      | cons a as => simp

/-- Splitting a colon-free string yields that string as the only field. -/
theorem splitColon_no_colon (p : Str) (hp : ':' ∉ p) : splitColon p = [p] := by
  induction p with
  | nil => rfl
  | cons c rest ih =>
    simp only [List.mem_cons, not_or] at hp
    have hc : ¬ c = ':' := fun h => hp.1 (by simp [h])
    simp only [splitColon, if_neg hc, ih hp.2]

/-- Splitting after a colon-free field peels that field off. -/
theorem splitColon_append (p t : Str) (hp : ':' ∉ p) :
    splitColon (p ++ ':' :: t) = p :: splitColon t := by
  induction p with
  | nil => simp [splitColon]
  | cons c rest ih =>
    simp only [List.mem_cons, not_or] at hp
    have hc : ¬ c = ':' := fun h => hp.1 (by simp [h])
    simp only [List.cons_append, splitColon, if_neg hc]
    rw [show rest.append (':' :: t) = rest ++ ':' :: t from rfl, ih hp.2]

/-- The colon split is a left inverse of the colon join on nonempty lists of
colon-free fields. -/
theorem splitColon_joinColon (parts : List Str) (hne : parts ≠ [])
    (hcf : ∀ p ∈ parts, ':' ∉ p) : splitColon (joinColon parts) = parts := by
  induction parts with
  | nil => exact absurd rfl hne
  | cons p rest ih =>
    cases rest with
    | nil =>
      simp only [joinColon]
      exact splitColon_no_colon p (hcf p (by simp))
    | cons q qs =>
      have hcf' : ∀ x ∈ q :: qs, ':' ∉ x := fun x hx => hcf x (List.mem_cons_of_mem _ hx)
      simp only [joinColon]
      rw [splitColon_append p _ (hcf p (by simp))]
      rw [ih (by simp) hcf']

/-! ## Protocol codec (SFItemTransformer and SFAbstractCrypto, src/dist/sfjs.js) -/

/-- Hash algorithm selector passed to CryptoJS.PBKDF2 (the hasher option). -/
inductive HashAlg
  | SHA512
  | SHA256
deriving DecidableEq

/-- Options object handed to CryptoJS.PBKDF2 by SFCryptoJS.pbkdf2:
keySize (in 32-bit words), hasher and iterations. -/
structure PBKDF2Options where
  keySize : Nat
  hasher : HashAlg
  iterations : Nat
deriving DecidableEq

/-- The auth_params record embedded in an envelope: the protocol version
plus the remaining key-derivation fields, which the codec only ever passes
through JSON.stringify, so they are kept opaque. -/
structure AuthParams where
  version : Str
  payload : Str
deriving DecidableEq

/-- External cryptographic and encoding primitives used by the codec.  These
live in CryptoJS and the browser, outside this repository, so they are
abstracted as a bundle of pure functions.  J is the type of parsed JSON
objects.  aesEnc and aesDec take the plaintext or ciphertext, the hex key
and the hex IV, the IV being the empty string when the source passes null. -/
structure CryptoPrims (J : Type) where
  aesEnc : Str → Str → Str → Str
  aesDec : Str → Str → Str → Str
  hmac256 : Str → Str → Str
  sha256 : Str → Str
  pbkdf2Raw : Str → Str → PBKDF2Options → Str
  base64Enc : Str → Str
  base64Dec : Str → Option Str
  jsonStringify : J → Str
  jsonParse : Str → Option J
  stringifyAuthParams : AuthParams → Str
  emptyObj : J

/-- JavaScript truthiness of an optional string: undefined and the empty
string are falsy. -/
def otruthy : Option Str → Bool
  | none => false
  | some s => !s.isEmpty

/-- Result of SFItemTransformer.encryptionComponentsFromString.  Fields that
JavaScript leaves undefined are none. -/
structure EncryptionComponents where
  encryptionVersion : Option Str
  authHash : Option Str
  uuid : Option Str
  iv : Option Str
  contentCiphertext : Option Str
  authParams : Option Str
  ciphertextToAuth : Str
  encryptionKey : Str
  authKey : Str
deriving DecidableEq

/-- SFItemTransformer.encryptionComponentsFromString.  A string with the
001 prefix carries the whole string as the data to authenticate and no IV;
anything else is split on colons into six positional fields. -/
def encryptionComponentsFromString (s encryptionKey authKey : Str) :
    EncryptionComponents :=
  if s.take 3 = v001 then
    { encryptionVersion := some (s.take 3)
      authHash := none
      uuid := none
      iv := none
      contentCiphertext := some (s.drop 3)
      authParams := none
      ciphertextToAuth := s
      encryptionKey := encryptionKey
      authKey := authKey }
  else
    let components := splitColon s
    { encryptionVersion := components[0]?
      authHash := components[1]?
      uuid := components[2]?
      iv := components[3]?
      contentCiphertext := components[4]?
      authParams := components[5]?
      ciphertextToAuth :=
        joinColon [components[0]?.getD [], components[2]?.getD [],
                   components[3]?.getD [], components[4]?.getD []]
      encryptionKey := encryptionKey
      authKey := authKey }

/-- SFAbstractCrypto.decryptText.  Returns none when the source returns
undefined (auth required but no hash) or null (hash mismatch); otherwise
the AES-CBC decryption of the ciphertext, with the IV defaulted to the
empty string when absent. -/
def decryptText {J : Type} (cr : CryptoPrims J) (p : EncryptionComponents)
    (requiresAuth : Bool) : Option Str :=
  if requiresAuth ∧ ¬ otruthy p.authHash then none
  else if otruthy p.authHash ∧
      ¬ p.authHash.getD [] = cr.hmac256 p.ciphertextToAuth p.authKey then none
  else some (cr.aesDec (p.contentCiphertext.getD []) p.encryptionKey (p.iv.getD []))

/-- SFAbstractCrypto.firstHalfOfKey: substring from 0 to length / 2. -/
def firstHalfOfKey (key : Str) : Str := key.take (key.length / 2)

/-- SFAbstractCrypto.secondHalfOfKey: substring from length / 2 to the end. -/
def secondHalfOfKey (key : Str) : Str := key.drop (key.length / 2)

/-- SFItemTransformer._private_encryptString.  For the 001 version the
ciphertext is the version tag concatenated with the raw AES output (IV
null); otherwise the six-field colon-joined envelope is produced, with the
IV supplied as the explicit random draw ivDraw (the source draws it from
crypto.generateRandomKey(128)). -/
def privateEncryptString {J : Type} (cr : CryptoPrims J)
    (string encryptionKey authKey uuid : Str) (ap : AuthParams) (ivDraw : Str) :
    Str :=
  if ap.version = v001 then
    ap.version ++ cr.aesEnc string encryptionKey []
  else
    let iv := ivDraw
    let contentCiphertext := cr.aesEnc string encryptionKey iv
    let ciphertextToAuth := joinColon [ap.version, uuid, iv, contentCiphertext]
    let authHash := cr.hmac256 ciphertextToAuth authKey
    let authParamsString := cr.base64Enc (cr.stringifyAuthParams ap)
    joinColon [ap.version, authHash, uuid, iv, contentCiphertext, authParamsString]

/-- Content field of an item as seen by the transformer: either a string
(the typeof check in decryptItem) or an already-parsed JSON object. -/
inductive JSContent (J : Type)
  | str (s : Str)
  | obj (j : J)
deriving DecidableEq

/-- The slice of SFItem visible to the transformer. -/
structure CItem (J : Type) where
  uuid : Str
  content : JSContent J
  enc_item_key : Option Str
  auth_hash : Option Str
  auth_params : Option J
  errorDecrypting : Bool
  errorDecryptingValueChanged : Bool
deriving DecidableEq

/-- The contentObject getter of SFItem: an object content is returned as
is, a string content is parsed, and a parse failure yields the empty
object. -/
def contentObjectOf {J : Type} (cr : CryptoPrims J) (item : CItem J) : J :=
  match item.content with
  | .obj j => j
  | .str s => (cr.jsonParse s).getD cr.emptyObj

/-- Keys in play during item encryption and decryption: the master
encryption key mk and master auth key ak. -/
structure ItemKeys where
  keysOf ::
  mk : Str
  ak : Str
deriving DecidableEq

/-- Result record of SFItemTransformer.encryptItem. -/
structure EncryptedParams where
  enc_item_key : Str
  auth_hash : Option Str
  content : Str
deriving DecidableEq

/-- SFItemTransformer.encryptItem.  The random item key and the two IV
draws consumed from the crypto RNG are explicit parameters.  For version
001 the item key is encrypted raw under mk (no version prefix) and a
top-level auth hash over the full content ciphertext is produced; for the
other versions both the item key and the content are wrapped in the
colon envelope. -/
def encryptItem {J : Type} (cr : CryptoPrims J) (item : CItem J)
    (keys : ItemKeys) (ap : AuthParams) (itemKeyDraw ivKeyDraw ivContentDraw : Str) :
    EncryptedParams :=
  let item_key := itemKeyDraw
  let encItemKey :=
    if ap.version = v001 then cr.aesEnc item_key keys.mk []
    else privateEncryptString cr item_key keys.mk keys.ak item.uuid ap ivKeyDraw
  let ek := firstHalfOfKey item_key
  let ak := secondHalfOfKey item_key
  let ciphertext :=
    privateEncryptString cr (cr.jsonStringify (contentObjectOf cr item)) ek ak
      item.uuid ap ivContentDraw
  let authHash := if ap.version = v001 then some (cr.hmac256 ciphertext ak) else none
  { enc_item_key := encItemKey, auth_hash := authHash, content := ciphertext }

/-- The error path of decryptItem: errorDecryptingValueChanged is raised
only when errorDecrypting was not already set, then errorDecrypting is
set. -/
def markErrorDecrypting {J : Type} (item : CItem J) : CItem J :=
  { item with
      errorDecryptingValueChanged :=
        if item.errorDecrypting then item.errorDecryptingValueChanged else true
      errorDecrypting := true }

/-- The try block of decryptItem that parses the embedded auth params: on
any failure (undefined field, atob throw, JSON.parse throw) the exception
is swallowed and the item is unchanged. -/
def parseEmbeddedAuthParams {J : Type} (cr : CryptoPrims J) (item : CItem J)
    (apField : Option Str) : CItem J :=
  match apField with
  | none => item
  | some apS =>
    match cr.base64Dec apS with
    | none => item
    | some d =>
      match cr.jsonParse d with
      | none => item
      | some j => { item with auth_params := some j }

/-- SFItemTransformer.decryptItem, faithful to the branch structure of the
source: non-string content returns immediately; a 000 prefix is the
unencrypted path; a missing (or empty) enc_item_key returns; the item key
envelope is parsed (un-prefixed legacy keys are treated as 001 and skip
authentication); a UUID mismatch in either envelope or a falsy decryption
result marks the item errorDecrypting; on success the decrypted string
replaces the content and errorDecrypting is cleared. -/
def decryptItem {J : Type} (cr : CryptoPrims J) (item : CItem J)
    (keys : ItemKeys) : CItem J :=
  match item.content with
  | .obj _ => item
  | .str contentS =>
    if contentS.take 3 = v000 then
      match cr.base64Dec (contentS.drop 3) with
      | none => item
      | some decoded =>
        match cr.jsonParse decoded with
        | none => item
        | some j => { item with content := .obj j }
    else if ¬ otruthy item.enc_item_key then item
    else
      let eik := item.enc_item_key.getD []
      let legacy := ¬ eik.take 3 = v002 ∧ ¬ eik.take 3 = v003
      let encryptedItemKey := if legacy then v001 ++ eik else eik
      let requiresAuth := ¬ legacy
      let keyParams := encryptionComponentsFromString encryptedItemKey keys.mk keys.ak
      if otruthy keyParams.uuid ∧ ¬ keyParams.uuid.getD [] = item.uuid then
        markErrorDecrypting item
      else
        let item_key? := decryptText cr keyParams requiresAuth
        if ¬ otruthy item_key? then markErrorDecrypting item
        else
          let item_key := item_key?.getD []
          let ek := firstHalfOfKey item_key
          let ak := secondHalfOfKey item_key
          let itemParams := encryptionComponentsFromString contentS ek ak
          let item1 := parseEmbeddedAuthParams cr item itemParams.authParams
          if otruthy itemParams.uuid ∧ ¬ itemParams.uuid.getD [] = item1.uuid then
            markErrorDecrypting item1
          else
            let itemParams2 :=
              if ¬ otruthy itemParams.authHash then
                { itemParams with authHash := item1.auth_hash }
              else itemParams
            let content? := decryptText cr itemParams2 true
            if ¬ otruthy content? then markErrorDecrypting item1
            else
              { item1 with
                  errorDecryptingValueChanged :=
                    if item1.errorDecrypting then true
                    else item1.errorDecryptingValueChanged
                  errorDecrypting := false
                  content := .str (content?.getD []) }

/-! ## Key derivation (SFAbstractCrypto and SFCryptoJS, src/dist/sfjs.js) -/

/-- Decimal rendering of a number, as JavaScript string coercion inside
Array.prototype.join produces it. -/
def natToStr (n : Nat) : Str := Nat.toDigits 10 n

/-- The DefaultPBKDF2Length constant set in the SFAbstractCrypto
constructor. -/
def DefaultPBKDF2Length : Nat := 768

/-- SFCryptoJS.pbkdf2: CryptoJS.PBKDF2 with keySize length / 32, hasher
SHA512 and iterations pw_cost. -/
def sfPbkdf2 {J : Type} (cr : CryptoPrims J) (password pw_salt : Str)
    (pw_cost length : Nat) : Str :=
  cr.pbkdf2Raw password pw_salt
    { keySize := length / 32, hasher := .SHA512, iterations := pw_cost }

/-- SFAbstractCrypto.generateSalt: SHA-256 of the colon join of
identifier, the literal SF, version, cost and nonce. -/
def generateSalt {J : Type} (cr : CryptoPrims J)
    (identifier version : Str) (cost : Nat) (nonce : Str) : Str :=
  cr.sha256 (joinColon [identifier, ['S', 'F'], version, natToStr cost, nonce])

/-- SFAbstractCrypto.generateSymmetricKeyPair: run PBKDF2 with the default
768-bit length and slice the output into thirds. -/
def generateSymmetricKeyPair {J : Type} (cr : CryptoPrims J)
    (password pw_salt : Str) (pw_cost : Nat) : List Str :=
  let output := sfPbkdf2 cr password pw_salt pw_cost DefaultPBKDF2Length
  let outputLength := output.length
  let splitLength := outputLength / 3
  let firstThird := (output.take splitLength).drop 0
  let secondThird := (output.take (splitLength * 2)).drop splitLength
  let thirdThird := (output.take (splitLength * 3)).drop (splitLength * 2)
  [firstThird, secondThird, thirdThird]

/-- The authParams record received by computeEncryptionKeysForUser. -/
structure KDFAuthParams where
  version : Str
  pw_cost : Nat
  pw_nonce : Str
  pw_salt : Str
  identifier : Option Str
deriving DecidableEq

/-- The pw, mk, ak triple produced by key derivation. -/
structure UserKeys where
  userKeysOf ::
  pw : Str
  mk : Str
  ak : Str
deriving DecidableEq

/-- Packing of the generateSymmetricKeyPair result into the named key
triple, as done in the then-callback of computeEncryptionKeysForUser. -/
def userKeysOfList (keys : List Str) : UserKeys :=
  { pw := (keys[0]?).getD [], mk := (keys[1]?).getD [], ak := (keys[2]?).getD [] }

/-- SFAbstractCrypto.computeEncryptionKeysForUser: for version 003 the salt
is derived via generateSalt from the identifier (missing identifier is an
error, returning undefined); for other versions the server-provided
pw_salt is used. -/
def computeEncryptionKeysForUser {J : Type} (cr : CryptoPrims J)
    (password : Str) (authParams : KDFAuthParams) : Option UserKeys :=
  if authParams.version = v003 then
    if ¬ otruthy authParams.identifier then none
    else
      let pw_salt := generateSalt cr (authParams.identifier.getD [])
        authParams.version authParams.pw_cost authParams.pw_nonce
      some (userKeysOfList (generateSymmetricKeyPair cr password pw_salt authParams.pw_cost))
  else
    some (userKeysOfList (generateSymmetricKeyPair cr password authParams.pw_salt authParams.pw_cost))

/-! ## Item model and model store (SFItem and SFModelManager, src/dist/sfjs.js)

Items are held in a single insertion-ordered list; the itemsHash lookup of
the source is modelled as a first-match search by UUID over that list.
References store the target UUIDs (the content_type tag carried alongside
each reference entry plays no role in any claim and is elided), and
referencingObjects stores the UUIDs of the referencing items (the source
stores object pointers and always matches them by uuid).  The
client_updated_at bookkeeping inside setDirty touches no field any claim
observes and is elided. -/

structure Item where
  uuid : Str
  content_type : Option Str
  refs : List Str
  deleted : Bool
  dirty : Bool
  dirtyCount : Nat
  dummy : Bool
  errorDecrypting : Bool
  errorDecryptingValueChanged : Bool
  created_at : Nat
  referencingObjects : List Str
deriving DecidableEq

/-- SFItem.setDirty: sets the flag, increments dirtyCount when dirtying and
zeroes it when clearing. -/
def Item.setDirty (item : Item) (dirty : Bool) : Item :=
  { item with
      dirty := dirty
      dirtyCount := if dirty then item.dirtyCount + 1 else 0 }

/-- SFItem.hasRelationshipWithItem, keyed by the target UUID. -/
def Item.hasRelationshipWith (item : Item) (targetUuid : Str) : Bool :=
  item.refs.contains targetUuid

/-- SFItem.setIsBeingReferencedBy: push the referencing item unless an
entry with its UUID is already present. -/
def Item.setIsBeingReferencedBy (item : Item) (byUuid : Str) : Item :=
  if item.referencingObjects.contains byUuid then item
  else { item with referencingObjects := item.referencingObjects ++ [byUuid] }

/-- SFItem.removeReferenceWithUuid: filter the reference with the given
UUID out of content.references. -/
def Item.removeReferenceWithUuid (item : Item) (uuid : Str) : Item :=
  { item with refs := item.refs.filter (fun r => ¬ r = uuid) }

/-- An entry of the missed-references table: the UUID waited for and the
UUID of the waiting item (the source stores the waiting object itself; all
uses resolve through the store). -/
structure MissedRef where
  reference_uuid : Str
  for_item : Str
deriving DecidableEq

/-- The slice of SFModelManager state the claims touch.  missedReferences
is an insertion-ordered association list, matching Object.keys order. -/
structure ModelManager where
  items : List Item
  itemsPendingRemoval : List Str
  missedReferences : List (Str × MissedRef)
  acceptableContentTypes : Option (List Str)
deriving DecidableEq

/-- The empty model manager. -/
def ModelManager.empty : ModelManager :=
  { items := [], itemsPendingRemoval := [], missedReferences := [], acceptableContentTypes := none }

/-- SFModelManager.findItem: itemsHash lookup by UUID. -/
def ModelManager.findItem (m : ModelManager) (uuid : Str) : Option Item :=
  m.items.find? (fun it => it.uuid = uuid)

/-- Mutation of the store object with the given UUID. -/
def ModelManager.updateItem (m : ModelManager) (uuid : Str) (f : Item → Item) :
    ModelManager :=
  { m with items := m.items.map (fun it => if it.uuid = uuid then f it else it) }

/-- SFItem.addItemAsRelationship performed on store members: the target
records the back-reference, and the forward reference is pushed unless
already present. -/
def ModelManager.addItemAsRelationship (m : ModelManager) (selfUuid otherUuid : Str) :
    ModelManager :=
  let m1 := m.updateItem otherUuid (fun o => o.setIsBeingReferencedBy selfUuid)
  match m1.findItem selfUuid with
  | none => m1
  | some s =>
    if s.hasRelationshipWith otherUuid then m1
    else m1.updateItem selfUuid (fun s => { s with refs := s.refs ++ [otherUuid] })

/-- SFItem.setIsNoLongerBeingReferencedBy performed on the store member
with UUID xUuid: drop the back-reference, and if a legacy two-way forward
reference exists, remove it and dirty the item. -/
def ModelManager.setIsNoLongerBeingReferencedBy (m : ModelManager) (xUuid byUuid : Str) :
    ModelManager :=
  let m1 := m.updateItem xUuid
    (fun x => { x with referencingObjects := x.referencingObjects.filter (fun r => ¬ r = byUuid) })
  match m1.findItem xUuid with
  | none => m1
  | some x =>
    if x.hasRelationshipWith byUuid then
      m1.updateItem xUuid (fun x => (x.removeReferenceWithUuid byUuid).setDirty true)
    else m1

/-- SFItem.removeItemAsRelationship performed on store members. -/
def ModelManager.removeItemAsRelationship (m : ModelManager) (selfUuid otherUuid : Str) :
    ModelManager :=
  let m1 := m.setIsNoLongerBeingReferencedBy otherUuid selfUuid
  m1.updateItem selfUuid (fun s => s.removeReferenceWithUuid otherUuid)

/-! ## Mapping server responses (SFModelManager.mapResponseItemsToLocalModels) -/

/-- A JSON record handed to the mapper.  Optional fields model keys the
record may lack: content is some when the record carries a content object
(carrying its reference UUIDs), and the client keys dirty, dirtyCount and
errorDecrypting are merged only when present, as in updateFromJSON. -/
structure MapRecord where
  uuid : Str
  content_type : Option Str
  content : Option (List Str)
  deleted : Bool
  dirty : Option Bool
  dirtyCount : Option Nat
  errorDecrypting : Option Bool
  created_at : Nat
deriving DecidableEq

/-- The SFItem constructor applied to a mapper record (createItem):
referencingObjects starts empty and a missing references array becomes the
empty array. -/
def createItemFromRecord (r : MapRecord) : Item :=
  { uuid := r.uuid
    content_type := r.content_type
    refs := r.content.getD []
    deleted := r.deleted
    dirty := r.dirty.getD false
    dirtyCount := r.dirtyCount.getD 0
    dummy := false
    errorDecrypting := r.errorDecrypting.getD false
    errorDecryptingValueChanged := false
    created_at := r.created_at
    referencingObjects := [] }

/-- SFItem.updateFromJSON restricted to the modelled fields: top-level
fields are overwritten, client keys only when present in the record,
content_type only when not already set, and the content references are
deep-merged (for the reference list the lodash merge amounts to taking the
incoming array when present). -/
def mergeRecordIntoItem (it : Item) (r : MapRecord) : Item :=
  { it with
      deleted := r.deleted
      dirty := r.dirty.getD it.dirty
      dirtyCount := r.dirtyCount.getD it.dirtyCount
      errorDecrypting := r.errorDecrypting.getD it.errorDecrypting
      content_type := if otruthy it.content_type then it.content_type else r.content_type
      refs := r.content.getD it.refs
      created_at := r.created_at }

/-- SFModelManager.missedReferenceBuildKey: referenceId colon objectId. -/
def missedReferenceBuildKey (referenceId objectId : Str) : Str :=
  referenceId ++ ':' :: objectId

/-- SFModelManager.resolveReferencesForItem.  The reference targets are
looked up up front (findItems with includeBlanks), then found targets get
the two-way edge installed (optionally dirtied) and missing targets are
entered in the missed-references table, coalesced by key. -/
def ModelManager.resolveReferencesForItem (m : ModelManager) (uuid : Str)
    (markReferencesDirty : Bool := false) : ModelManager :=
  match m.findItem uuid with
  | none => m
  | some item =>
    let referencesIds := item.refs
    let results := referencesIds.map (fun rid => (m.findItem rid).map (fun it => it.uuid))
    (referencesIds.zip results).foldl
      (fun acc pair =>
        match pair.2 with
        | some referencedUuid =>
          let acc := acc.addItemAsRelationship uuid referencedUuid
          if markReferencesDirty then acc.updateItem referencedUuid (fun it => it.setDirty true)
          else acc
        | none =>
          let missingRefId := pair.1
          let mappingKey := missedReferenceBuildKey missingRefId uuid
          if (acc.missedReferences.lookup mappingKey).isSome then acc
          else
            { acc with
                missedReferences := acc.missedReferences ++
                  [(mappingKey, { reference_uuid := missingRefId, for_item := uuid })] })
      m

/-- SFModelManager.popMissedReferenceStructsForObjects: with a nonempty
batch, every table key whose prefix of the length of the first UUID of the
batch is a UUID of the batch is collected in table order and removed. -/
def ModelManager.popMissedReferenceStructsForObjects (m : ModelManager)
    (objectUuids : List Str) : List MissedRef × ModelManager :=
  if objectUuids.isEmpty then ([], m)
  else
    let genericUuidLength := (objectUuids.head?.getD []).length
    let hit := fun (kv : Str × MissedRef) => objectUuids.contains (kv.1.take genericUuidLength)
    let results := (m.missedReferences.filter hit).map (fun kv => kv.2)
    (results, { m with missedReferences := m.missedReferences.filter (fun kv => ¬ hit kv) })

/-- State threaded through the first mapping pass: the store, the models
array and the processedObjects array (kept as their records). -/
structure MapPassState where
  m : ModelManager
  models : List Str
  processed : List MapRecord
deriving DecidableEq

/-- First pass of mapResponseItemsToLocalModelsOmittingFields for one
record: validity guard, merge into an existing item (clearing its dummy
marker), the pending-removal check, the content-type allow-list, the
deleted handling, creation and insertion. -/
def mapPassOne (st : MapPassState) (r : MapRecord) : MapPassState :=
  if (¬ otruthy r.content_type ∨ r.content.isNone ∨ r.uuid.isEmpty) ∧
      ¬ r.deleted ∧ ¬ (r.errorDecrypting.getD false) then st
  else
    let existing := st.m.findItem r.uuid
    let m := match existing with
      | some _ => st.m.updateItem r.uuid (fun it => { mergeRecordIntoItem it r with dummy := false })
      | none => st.m
    if st.m.itemsPendingRemoval.contains r.uuid then
      { st with m := { m with itemsPendingRemoval := m.itemsPendingRemoval.filter (fun u => ¬ u = r.uuid) } }
    else
      let contentType := if otruthy r.content_type then r.content_type
        else existing.bind (fun it => it.content_type)
      let unknownContentType : Bool := match m.acceptableContentTypes with
        | some allowed => ! allowed.contains (contentType.getD [])
        | none => false
      if unknownContentType then { st with m := m }
      else
        let isDirtyItemPendingDelete := r.deleted ∧ r.dirty.getD false
        if r.deleted ∧ ¬ r.dirty.getD false then
          match existing with
          | some it =>
            { st with m :=
                { m with
                    items := m.items.filter (fun x => ¬ x.uuid = it.uuid)
                    itemsPendingRemoval := m.itemsPendingRemoval ++ [it.uuid] } }
          | none => { st with m := m }
        else
          let _ := isDirtyItemPendingDelete
          let m2 := match m.findItem r.uuid with
            | some _ => m
            | none => { m with items := m.items ++ [createItemFromRecord r] }
          { m := m2, models := st.models ++ [r.uuid], processed := st.processed ++ [r] }

/-- SFModelManager.mapResponseItemsToLocalModels: the first pass over all
records, the reference-resolution pass over the records that carried
content, and the missed-references finalization.  In the source the loop
variable model leaks out of the second pass, so the waiting item of every
popped missed reference is related to the last model of the batch. -/
def ModelManager.mapResponseItemsToLocalModels (m : ModelManager)
    (records : List MapRecord) : ModelManager :=
  let st := records.foldl mapPassOne { m := m, models := [], processed := [] }
  let m2 := (st.models.zip st.processed).foldl
    (fun acc pair =>
      if pair.2.content.isSome then acc.resolveReferencesForItem pair.1 else acc)
    st.m
  let (missedRefs, m3) := m2.popMissedReferenceStructsForObjects (st.processed.map (fun r => r.uuid))
  let lastModel := (st.models.getLast?).getD []
  missedRefs.foldl (fun acc ref => acc.addItemAsRelationship ref.for_item lastModel) m3

/-! ## UUID alternation (SFModelManager.alternateUUIDForItem) -/

/-- SFItem.potentialItemOfInterestHasChangedItsUUID: every reference entry
carrying the old UUID is rewritten to the new one, with setDirty applied
once per rewritten entry. -/
def potentialItemOfInterest (oldUuid newUuid : Str) (it : Item) : Item :=
  let k := it.refs.count oldUuid
  let it2 := { it with refs := it.refs.map (fun r => if r = oldUuid then newUuid else r) }
  (List.range k).foldl (fun acc _ => acc.setDirty true) it2

/-- SFModelManager.informModelsOfUUIDChangeForItem: every model in the
store hears about the change. -/
def ModelManager.informModelsOfUUIDChangeForItem (m : ModelManager)
    (oldUuid newUuid : Str) : ModelManager :=
  { m with items := m.items.map (potentialItemOfInterest oldUuid newUuid) }

/-- One referencing object being rebound during alternation: it stops
back-referencing the original, gains the relationship to the new item (a
local object not yet in the store, threaded through), and is dirtied. -/
def alternateVisitReferencingObject (m : ModelManager) (origUuid : Str)
    (newItem : Item) (refObjUuid : Str) : ModelManager × Item :=
  let m := m.setIsNoLongerBeingReferencedBy refObjUuid origUuid
  let newItem2 := newItem.setIsBeingReferencedBy refObjUuid
  let m := match m.findItem refObjUuid with
    | none => m
    | some r =>
      if r.hasRelationshipWith newItem2.uuid then m
      else m.updateItem refObjUuid (fun r => { r with refs := r.refs ++ [newItem2.uuid] })
  (m.updateItem refObjUuid (fun r => r.setDirty true), newItem2)

/-- The for-of loop over item.referencingObjects in alternateUUIDForItem,
with JavaScript iterator semantics: the array is re-read from the live
object at every step, so in-place removals are observed. -/
def alternateLoop (m : ModelManager) (origUuid : Str) (newItem : Item)
    (idx : Nat) : Nat → ModelManager × Item
  | 0 => (m, newItem)
  | fuel + 1 =>
    let arr := ((m.findItem origUuid).map (fun it => it.referencingObjects)).getD []
    match arr[idx]? with
    | none => (m, newItem)
    | some refObjUuid =>
      let (m2, newItem2) := alternateVisitReferencingObject m origUuid newItem refObjUuid
      alternateLoop m2 origUuid newItem2 (idx + 1) fuel

/-- Conversion of a live store item into the record the mapper sees when
alternateUUIDForItem runs the original through
mapResponseItemsToLocalModels. -/
def itemToRecord (it : Item) : MapRecord :=
  { uuid := it.uuid
    content_type := it.content_type
    content := some it.refs
    deleted := it.deleted
    dirty := some it.dirty
    dirtyCount := some it.dirtyCount
    errorDecrypting := some it.errorDecrypting
    created_at := it.created_at }

/-- Stage of alternateUUIDForItem after the referencing objects have been
rebound: the store with the rebinding applied, paired with the new item as
built so far. -/
def alternatePhase1 (m : ModelManager) (origUuid newUuid : Str) :
    ModelManager × Option Item :=
  match m.findItem origUuid with
  | none => (m, none)
  | some item0 =>
    let newItem0 : Item := { item0 with uuid := newUuid, referencingObjects := [], dummy := false }
    let m1 := m.informModelsOfUUIDChangeForItem origUuid newUuid
    let fuel := ((m1.findItem origUuid).map (fun it => it.referencingObjects.length)).getD 0
    let (m2, newItem1) := alternateLoop m1 origUuid newItem0 0 fuel
    (m2, some newItem1)

/-- Stage of alternateUUIDForItem after the original has been retired:
deleted set, references cleared, dirty cleared. -/
def alternatePhase2 (m : ModelManager) (origUuid newUuid : Str) :
    ModelManager × Option Item :=
  let (m2, newItem?) := alternatePhase1 m origUuid newUuid
  match newItem? with
  | none => (m2, none)
  | some newItem1 =>
    (m2.updateItem origUuid (fun it => ({ it with deleted := true, refs := [] }).setDirty false),
     some newItem1)

/-- SFModelManager.alternateUUIDForItem: clone under a fresh UUID, rewrite
every reference to the old UUID, rebind the referencing objects, retire the
original (deleted, references cleared, not dirty), run it through the
mapper so it is removed, then insert and dirty the clone. -/
def ModelManager.alternateUUIDForItem (m : ModelManager) (origUuid newUuid : Str) :
    ModelManager :=
  let (m3, newItem?) := alternatePhase2 m origUuid newUuid
  match newItem? with
  | none => m3
  | some newItem1 =>
    let m4 := match m3.findItem origUuid with
      | some origNow => m3.mapResponseItemsToLocalModels [itemToRecord origNow]
      | none => m3
    let m5 := if (m4.findItem newItem1.uuid).isSome then m4
      else { m4 with items := m4.items ++ [newItem1] }
    m5.updateItem newItem1.uuid (fun it => it.setDirty true)

/-- The rebinding obligation of UUID alternation for one referencing
object: it is present in the store, its references include the new UUID
and no longer include the old one, and it is dirty. -/
def refBound (oldUuid newUuid : Str) (m : ModelManager) (w : Str) : Prop :=
  ∃ r, m.findItem w = some r ∧ newUuid ∈ r.refs ∧ ¬ oldUuid ∈ r.refs ∧ r.dirty = true

/-- Monotone evolution of the store along the deletion pipeline: every
stored item stays present under its UUID, and the deleted and dirty marks
are never cleared while the dummy mark is never set. -/
def FlagKeeps (m mAfter : ModelManager) : Prop :=
  ∀ w z, m.findItem w = some z → ∃ z2, mAfter.findItem w = some z2 ∧
    (z.deleted = true → z2.deleted = true) ∧ (z.dirty = true → z2.dirty = true) ∧
    (z.dummy = false → z2.dummy = false)

/-! ## Deletion (SFModelManager.setItemToBeDeleted) -/

/-- The second loop of removeAndDirtyAllRelationshipsForItem, iterating
item.referencingObjects while setIsNoLongerBeingReferencedBy removes the
current entry from that very array in place, so the iterator advances past
the following element; the live array is re-read each step to reproduce
this. -/
def removeRefObjsLoop (m : ModelManager) (uuid : Str) (idx : Nat) :
    Nat → ModelManager
  | 0 => m
  | fuel + 1 =>
    let arr := ((m.findItem uuid).map (fun it => it.referencingObjects)).getD []
    match arr[idx]? with
    | none => m
    | some objUuid =>
      let m2 := m.removeItemAsRelationship objUuid uuid
      let m3 := m2.updateItem objUuid (fun o => o.setDirty true)
      removeRefObjsLoop m3 uuid (idx + 1) fuel

/-- SFModelManager.removeAndDirtyAllRelationshipsForItem: drop the direct
relationships (dirtying legacy two-way partners), run the referencing
objects loop, then clear the back-reference array. -/
def ModelManager.removeAndDirtyAllRelationshipsForItem (m : ModelManager)
    (uuid : Str) : ModelManager :=
  let refsSnapshot := ((m.findItem uuid).map (fun it => it.refs)).getD []
  let m1 := refsSnapshot.foldl
    (fun acc r =>
      match acc.findItem r with
      | none => acc
      | some _ =>
        let acc := acc.removeItemAsRelationship uuid r
        match acc.findItem r with
        | none => acc
        | some rel2 =>
          if rel2.hasRelationshipWith uuid then
            (acc.removeItemAsRelationship r uuid).updateItem r (fun x => x.setDirty true)
          else acc)
    m
  let fuel := ((m1.findItem uuid).map (fun it => it.referencingObjects.length)).getD 0
  let m2 := removeRefObjsLoop m1 uuid 0 fuel
  m2.updateItem uuid (fun it => { it with referencingObjects := [] })

/-- SFModelManager.setItemToBeDeleted: mark deleted, dirty it unless it is
a dummy, and tear down its relationships. -/
def ModelManager.setItemToBeDeleted (m : ModelManager) (uuid : Str) : ModelManager :=
  match m.findItem uuid with
  | none => m
  | some it =>
    let m1 := m.updateItem uuid (fun x => { x with deleted := true })
    let m2 := if ¬ it.dummy then m1.updateItem uuid (fun x => x.setDirty true) else m1
    m2.removeAndDirtyAllRelationshipsForItem uuid

/-! ## Singleton resolver (SFSingletonManager.resolveSingletons) -/

/-- Insertion step of the sort by created_at, with the comparator of the
source: a before b exactly when a.created_at < b.created_at. -/
def insertByCreatedAt (a : Item) : List Item → List Item
  | [] => [a]
  | b :: l => if a.created_at < b.created_at then a :: b :: l else b :: insertByCreatedAt a l

/-- Array.prototype.sort with the created_at comparator, modelled as
insertion sort (any order consistent with the comparator has the same
observable properties for the claims). -/
def sortByCreatedAt (l : List Item) : List Item := l.foldr insertByCreatedAt []

/-- SFModelManager.allItems: the non-dummy items. -/
def ModelManager.allItems (m : ModelManager) : List Item :=
  m.items.filter (fun it => ¬ it.dummy)

/-- SFModelManager.itemsMatchingPredicates over the registered predicate
set, which is abstracted as a boolean test on items
(SFPredicate.ItemSatisfiesPredicates). -/
def ModelManager.itemsMatchingPred (m : ModelManager) (sat : Item → Bool) : List Item :=
  m.allItems.filter sat

/-- Observable outcome of one resolveSingletons pass for one handler: the
store, the handler binding, whether a sync was triggered, the argument
passed to resolutionCallback, and whether createBlock was invoked. -/
structure ResolveOutcome where
  m : ModelManager
  handlerSingleton : Option Str
  handlerPendingCreate : Bool
  syncCalled : Bool
  callbackArg : Option Str
  createBlockCalled : Bool
deriving DecidableEq

/-- The body of the per-handler loop of
SFSingletonManager.resolveSingletons.  When a retrieved or saved match
exists and at least two local items match, all but the first of the sort
by created_at are marked for deletion, a sync is triggered and the first
is bound and reported; with exactly one match an unbound handler binds it;
with no remote match an unbound handler invokes createBlock outside the
initial load. -/
def resolveSingletonsHandler (m : ModelManager) (sat : Item → Bool)
    (handlerSingleton : Option Str) (handlerPendingCreate : Bool)
    (hasCreateBlock : Bool) (retrievedItems savedItems : List Item)
    (initialLoad : Bool) : ResolveOutcome :=
  let retrievedSingletonItems := retrievedItems.filter sat
  let savedSingletonItemsCount := (savedItems.filter sat).length
  if 0 < retrievedSingletonItems.length ∨ 0 < savedSingletonItemsCount then
    let allExtantItemsMatchingPredicate := m.itemsMatchingPred sat
    if 2 ≤ allExtantItemsMatchingPredicate.length then
      let sorted := sortByCreatedAt allExtantItemsMatchingPredicate
      let winningItem? := sorted.head?
      let toDelete := sorted.drop 1
      let m2 := toDelete.foldl (fun acc d => acc.setItemToBeDeleted d.uuid) m
      { m := m2
        handlerSingleton := winningItem?.map (fun w => w.uuid)
        handlerPendingCreate := handlerPendingCreate
        syncCalled := true
        callbackArg := winningItem?.map (fun w => w.uuid)
        createBlockCalled := false }
    else if allExtantItemsMatchingPredicate.length = 1 then
      if handlerSingleton.isNone then
        let singleton? := allExtantItemsMatchingPredicate.head?
        { m := m
          handlerSingleton := singleton?.map (fun w => w.uuid)
          handlerPendingCreate := handlerPendingCreate
          syncCalled := false
          callbackArg := singleton?.map (fun w => w.uuid)
          createBlockCalled := false }
      else
        { m := m, handlerSingleton := handlerSingleton
          handlerPendingCreate := handlerPendingCreate
          syncCalled := false, callbackArg := none, createBlockCalled := false }
    else
      { m := m, handlerSingleton := handlerSingleton
        handlerPendingCreate := handlerPendingCreate
        syncCalled := false, callbackArg := none, createBlockCalled := false }
  else
    if handlerSingleton.isNone ∧ ¬ initialLoad ∧ ¬ handlerPendingCreate ∧ hasCreateBlock then
      { m := m, handlerSingleton := handlerSingleton
        handlerPendingCreate := true
        syncCalled := false, callbackArg := none, createBlockCalled := true }
    else
      { m := m, handlerSingleton := handlerSingleton
        handlerPendingCreate := handlerPendingCreate
        syncCalled := false, callbackArg := none, createBlockCalled := false }

/-! ## Sync engine dirty protocol (SFSyncManager.sync, src/unnamed/part_000) -/

/-- SFModelManager.getDirtyItems: dirty, not a dummy, and decryptable or
being deleted. -/
def ModelManager.getDirtyItems (m : ModelManager) : List Item :=
  m.items.filter (fun it => it.dirty ∧ ¬ it.dummy ∧ (¬ it.errorDecrypting ∨ it.deleted))

/-- The submission batch of one sync cycle: the first submitLimit (100)
dirty items. -/
def syncSubItems (m : ModelManager) : List Str :=
  ((m.getDirtyItems).take 100).map (fun it => it.uuid)

/-- The pre-flight reset in sync: every submitted item has its dirtyCount
set to 0 (the dirty flag is left alone) so that later dirtying is visible
at clear time. -/
def resetDirtyCounters (m : ModelManager) (subItems : List Str) : ModelManager :=
  subItems.foldl (fun acc u => acc.updateItem u (fun it => { it with dirtyCount := 0 })) m

/-- SFModelManager.clearDirtyItems: setDirty false on each given item. -/
def ModelManager.clearDirtyItems (m : ModelManager) (uuids : List Str) : ModelManager :=
  uuids.foldl (fun acc u => acc.updateItem u (fun it => it.setDirty false)) m

/-- The clearing step of onSyncSuccess: of the submitted batch, exactly
the items whose dirtyCount is still 0 are cleared. -/
def onSyncSuccessClear (m : ModelManager) (subItems : List Str) : ModelManager :=
  let itemsToClearAsDirty := subItems.filter
    (fun u => match m.findItem u with
      | some it => it.dirtyCount = 0
      | none => false)
  m.clearDirtyItems itemsToClearAsDirty

/-- Mid-flight application activity: each event dirties one item through
SFItem.setDirty true. -/
def applyInFlightDirtying (m : ModelManager) (events : List Str) : ModelManager :=
  events.foldl (fun acc u => acc.updateItem u (fun it => it.setDirty true)) m

/-! ## A concrete instantiation of the crypto primitives

Witness theorems evaluate the embedded code on concrete inputs.  For that
a computable stand-in for the external primitives is needed; it encodes
reversibly while keeping its output free of the colon separator, which is
all the hypotheses of the theorems ask of the real primitives. -/

namespace WC

/-- Colon-free escaping of one character. -/
def escChar (c : Char) : Str :=
  if c = ':' then [';', '1'] else if c = ';' then [';', '2'] else [c]

/-- Colon-free escaping of a string. -/
def esc : Str → Str
  | [] => []
  | c :: rest => escChar c ++ esc rest

/-- Inverse of the escaping. -/
def unesc : Str → Str
  | [] => []
  | [c] => [c]
  | c :: d :: rest =>
    if c = ';' then
      if d = '1' then ':' :: unesc rest
      else if d = '2' then ';' :: unesc rest
      else c :: unesc (d :: rest)
    else c :: unesc (d :: rest)

/-- The stand-in primitives over J given as plain strings. -/
def cr : CryptoPrims Str :=
  { aesEnc := fun t _ _ => 'E' :: esc t
    aesDec := fun s _ _ => unesc (s.drop 1)
    hmac256 := fun msg _ => 'H' :: esc msg
    sha256 := fun s => 'S' :: esc s
    pbkdf2Raw := fun _ _ opts => List.replicate (opts.keySize * 8) 'k'
    base64Enc := fun s => 'B' :: esc s
    base64Dec := fun s => match s with
      | 'B' :: rest => some (unesc rest)
      | _ => none
    jsonStringify := fun j => 'J' :: esc j
    jsonParse := fun s => some s
    stringifyAuthParams := fun ap => ap.version ++ ap.payload
    emptyObj := [] }

theorem esc_colonFree (s : Str) : ':' ∉ esc s := by
  induction s with
  | nil => simp [esc]
  | cons c rest ih =>
    simp only [esc, escChar]
    by_cases h1 : c = ':'
    · simp [h1, ih]
    · by_cases h2 : c = ';'
      · simp [h1, h2, ih]
      · simp only [if_neg h1, if_neg h2, List.singleton_append, List.mem_cons, not_or]
        exact ⟨fun h => h1 h.symm, ih⟩

theorem esc_eq_nil_iff (s : Str) : esc s = [] ↔ s = [] := by
  cases s with
  | nil => simp [esc]
  | cons c rest =>
    simp only [esc, escChar]
    by_cases h1 : c = ':'
    · simp [h1]
    · by_cases h2 : c = ';' <;> simp [h1, h2]

theorem unesc_esc (s : Str) : unesc (esc s) = s := by
  induction s with
  | nil => rfl
  | cons c rest ih =>
    simp only [esc, escChar]
    by_cases h1 : c = ':'
    · simp [h1, unesc, ih]
    · by_cases h2 : c = ';'
      · simp [h1, h2, unesc, ih]
      · simp only [if_neg h1, if_neg h2, List.singleton_append]
        cases hrest : esc rest with
        | nil =>
          have : rest = [] := (esc_eq_nil_iff rest).mp hrest
          simp [this, unesc]
        | cons d ds =>
          rw [hrest] at ih
          simp [unesc, if_neg h2, ih]

theorem aesRoundTrip (t k iv : Str) : cr.aesDec (cr.aesEnc t k iv) k iv = t := by
  simp [cr, unesc_esc]

theorem aesEnc_colonFree (t k iv : Str) : ':' ∉ cr.aesEnc t k iv := by
  simp only [cr, List.mem_cons, not_or]
  exact ⟨by decide, esc_colonFree t⟩

theorem aesEnc_ne_nil (t k iv : Str) : cr.aesEnc t k iv ≠ [] := by
  simp [cr]

theorem aesEnc_no_version_prefix (t k iv : Str) :
    ¬ (cr.aesEnc t k iv).take 3 = v002 ∧ ¬ (cr.aesEnc t k iv).take 3 = v003 := by
  constructor <;>
  · show ¬ (('E' :: esc t).take 3 = _)
    cases esc t with
    | nil => decide
    | cons a as =>
      cases as with
      | nil => simp [v002, v003]
      | cons b bs => simp [v002, v003]

theorem hmac_colonFree (msg k : Str) : ':' ∉ cr.hmac256 msg k := by
  simp only [cr, List.mem_cons, not_or]
  exact ⟨by decide, esc_colonFree msg⟩

theorem hmac_ne_nil (msg k : Str) : cr.hmac256 msg k ≠ [] := by
  simp [cr]

theorem base64Enc_colonFree (s : Str) : ':' ∉ cr.base64Enc s := by
  simp only [cr, List.mem_cons, not_or]
  exact ⟨by decide, esc_colonFree s⟩

theorem jsonStringify_ne_nil (j : Str) : cr.jsonStringify j ≠ [] := by
  simp [cr]

end WC

/-! ## Lemmas about the envelope codec -/

theorem joinColon_cons_cons (p q : Str) (rest : List Str) :
    joinColon (p :: q :: rest) = p ++ ':' :: joinColon (q :: rest) := rfl

/-- Parsing a six-field envelope whose fields are colon-free and whose
version is three characters and not 001 recovers the fields. -/
theorem parse_envelope6 (v h u iv ct ap ek ak : Str)
    (hv3 : v.length = 3) (hvne : ¬ v = v001)
    (hcfv : ':' ∉ v) (hcfh : ':' ∉ h) (hcfu : ':' ∉ u) (hcfiv : ':' ∉ iv)
    (hcfct : ':' ∉ ct) (hcfap : ':' ∉ ap) :
    encryptionComponentsFromString (joinColon [v, h, u, iv, ct, ap]) ek ak =
      { encryptionVersion := some v
        authHash := some h
        uuid := some u
        iv := some iv
        contentCiphertext := some ct
        authParams := some ap
        ciphertextToAuth := joinColon [v, u, iv, ct]
        encryptionKey := ek
        authKey := ak } := by
  have htake : (joinColon [v, h, u, iv, ct, ap]).take 3 = v := by
    rw [joinColon_cons_cons, ← hv3, List.take_left]
  have hsplit : splitColon (joinColon [v, h, u, iv, ct, ap]) = [v, h, u, iv, ct, ap] := by
    refine splitColon_joinColon _ (by simp) ?_
    intro p hp
    simp only [List.mem_cons, List.not_mem_nil, or_false] at hp
    rcases hp with rfl | rfl | rfl | rfl | rfl | rfl <;> assumption
  rw [encryptionComponentsFromString, if_neg (by rw [htake]; exact hvne)]
  simp [hsplit]

/-- Parsing a string with the 001 prefix takes the legacy branch. -/
theorem parse_envelope001 (tail ek ak : Str) :
    encryptionComponentsFromString (v001 ++ tail) ek ak =
      { encryptionVersion := some v001
        authHash := none
        uuid := none
        iv := none
        contentCiphertext := some tail
        authParams := none
        ciphertextToAuth := v001 ++ tail
        encryptionKey := ek
        authKey := ak } := by
  have htake : (v001 ++ tail).take 3 = v001 := by
    rw [show (3 : Nat) = v001.length from rfl, List.take_left]
  have hdrop : (v001 ++ tail).drop 3 = tail := by
    rw [show (3 : Nat) = v001.length from rfl, List.drop_left]
  rw [encryptionComponentsFromString, if_pos htake]
  simp [htake, hdrop]

/-- SFAbstractCrypto.decryptText succeeds and decrypts when the stored
hash matches the recomputed one. -/
theorem decryptText_hash_match {J : Type} (cr : CryptoPrims J)
    (p : EncryptionComponents) (rA : Bool)
    (hh : p.authHash = some (cr.hmac256 p.ciphertextToAuth p.authKey))
    (hne : cr.hmac256 p.ciphertextToAuth p.authKey ≠ []) :
    decryptText cr p rA =
      some (cr.aesDec (p.contentCiphertext.getD []) p.encryptionKey (p.iv.getD [])) := by
  unfold decryptText
  rw [hh]
  simp [otruthy, List.isEmpty_iff, hne]

/-- SFAbstractCrypto.decryptText returns null on a hash mismatch. -/
theorem decryptText_hash_mismatch {J : Type} (cr : CryptoPrims J)
    (p : EncryptionComponents) (rA : Bool) (h : Str)
    (hh : p.authHash = some h) (hne : h ≠ [])
    (hmis : ¬ h = cr.hmac256 p.ciphertextToAuth p.authKey) :
    decryptText cr p rA = none := by
  unfold decryptText
  rw [hh]
  simp [otruthy, List.isEmpty_iff, hne, hmis]

/-- SFAbstractCrypto.decryptText with no hash and no auth requirement
decrypts directly. -/
theorem decryptText_no_auth {J : Type} (cr : CryptoPrims J)
    (p : EncryptionComponents) (hh : p.authHash = none) :
    decryptText cr p false =
      some (cr.aesDec (p.contentCiphertext.getD []) p.encryptionKey (p.iv.getD [])) := by
  unfold decryptText
  rw [hh]
  simp [otruthy]

theorem otruthy_some_iff (s : Str) : otruthy (some s) = true ↔ s ≠ [] := by
  simp [otruthy, List.isEmpty_iff]

theorem parseEmbeddedAuthParams_eq {J : Type} (cr : CryptoPrims J)
    (it : CItem J) (apf : Option Str) :
    ∃ apv, parseEmbeddedAuthParams cr it apf = { it with auth_params := apv } := by
  cases apf with
  | none => exact ⟨it.auth_params, rfl⟩
  | some s =>
    cases hb : cr.base64Dec s with
    | none => exact ⟨it.auth_params, by simp [parseEmbeddedAuthParams, hb]⟩
    | some d =>
      cases hj : cr.jsonParse d with
      | none => exact ⟨it.auth_params, by simp [parseEmbeddedAuthParams, hb, hj]⟩
      | some j => exact ⟨some j, by simp [parseEmbeddedAuthParams, hb, hj]⟩

theorem take3_joinColon_cons (v q : Str) (rest : List Str) (hv3 : v.length = 3) :
    (joinColon (v :: q :: rest)).take 3 = v := by
  rw [joinColon_cons_cons, ← hv3, List.take_left]

theorem joinColon_cons_cons_ne_nil (v q : Str) (rest : List Str) :
    joinColon (v :: q :: rest) ≠ [] := by
  rw [joinColon_cons_cons]
  simp

/-- Decryption of a well-formed pair of envelopes: the item key wrapped
with a 002 or 003 version, the content wrapped with any three-character
version other than 000 and 001, both carrying the UUID of the item and
matching auth hashes.  The content decrypts to the plaintext and the error
flag ends cleared.  This is the shared engine behind the round-trip claim
and the analysis of unrecognized version prefixes. -/
theorem decryptItem_envelopes_ok {J : Type} (cr : CryptoPrims J)
    (item : CItem J) (keys : ItemKeys) (apK apC : AuthParams)
    (pt ikey iv1 iv2 : Str) (ah : Option Str)
    (hvk : apK.version = v002 ∨ apK.version = v003)
    (hw3 : apC.version.length = 3)
    (hw0 : ¬ apC.version = v000) (hw1 : ¬ apC.version = v001)
    (hwCF : ':' ∉ apC.version)
    (hRT : ∀ t k iv, cr.aesDec (cr.aesEnc t k iv) k iv = t)
    (hEncCF : ∀ t k iv, ':' ∉ cr.aesEnc t k iv)
    (hHmacCF : ∀ msg k, ':' ∉ cr.hmac256 msg k)
    (hHmacNE : ∀ msg k, cr.hmac256 msg k ≠ [])
    (hB64CF : ∀ s, ':' ∉ cr.base64Enc s)
    (hUuidCF : ':' ∉ item.uuid)
    (hIv1CF : ':' ∉ iv1) (hIv2CF : ':' ∉ iv2)
    (hIkeyNE : ikey ≠ []) (hPtNE : pt ≠ []) :
    let encItem : CItem J :=
      { item with
          content := .str (privateEncryptString cr pt (firstHalfOfKey ikey)
            (secondHalfOfKey ikey) item.uuid apC iv2)
          enc_item_key := some (privateEncryptString cr ikey keys.mk keys.ak
            item.uuid apK iv1)
          auth_hash := ah }
    (decryptItem cr encItem keys).content = .str pt ∧
    (decryptItem cr encItem keys).errorDecrypting = false := by
  intro encItem
  have hvk3 : apK.version.length = 3 := by
    rcases hvk with h | h <;> simp [h, v002, v003]
  have hvk1 : ¬ apK.version = v001 := by
    rcases hvk with h | h <;> simp [h] <;> decide
  have hvkCF : ':' ∉ apK.version := by
    rcases hvk with h | h <;> simp [h, v002, v003]
  set ek := firstHalfOfKey ikey with hek
  set ak := secondHalfOfKey ikey with hak
  set ctk := cr.aesEnc ikey keys.mk iv1 with hctk
  set ctc := cr.aesEnc pt ek iv2 with hctc
  set hk := cr.hmac256 (joinColon [apK.version, item.uuid, iv1, ctk]) keys.ak with hhk
  set hc := cr.hmac256 (joinColon [apC.version, item.uuid, iv2, ctc]) ak with hhc
  set apk64 := cr.base64Enc (cr.stringifyAuthParams apK) with hapk64
  set apc64 := cr.base64Enc (cr.stringifyAuthParams apC) with hapc64
  have heik : privateEncryptString cr ikey keys.mk keys.ak item.uuid apK iv1 =
      joinColon [apK.version, hk, item.uuid, iv1, ctk, apk64] := by
    rw [privateEncryptString, if_neg hvk1]
  have hcontent : privateEncryptString cr pt ek ak item.uuid apC iv2 =
      joinColon [apC.version, hc, item.uuid, iv2, ctc, apc64] := by
    rw [privateEncryptString, if_neg hw1]
  have hparseK : encryptionComponentsFromString
      (joinColon [apK.version, hk, item.uuid, iv1, ctk, apk64]) keys.mk keys.ak =
      { encryptionVersion := some apK.version
        authHash := some hk
        uuid := some item.uuid
        iv := some iv1
        contentCiphertext := some ctk
        authParams := some apk64
        ciphertextToAuth := joinColon [apK.version, item.uuid, iv1, ctk]
        encryptionKey := keys.mk
        authKey := keys.ak } :=
    parse_envelope6 _ _ _ _ _ _ _ _ hvk3 hvk1 hvkCF (hHmacCF _ _) hUuidCF hIv1CF
      (hEncCF _ _ _) (hB64CF _)
  have hparseC : encryptionComponentsFromString
      (joinColon [apC.version, hc, item.uuid, iv2, ctc, apc64]) ek ak =
      { encryptionVersion := some apC.version
        authHash := some hc
        uuid := some item.uuid
        iv := some iv2
        contentCiphertext := some ctc
        authParams := some apc64
        ciphertextToAuth := joinColon [apC.version, item.uuid, iv2, ctc]
        encryptionKey := ek
        authKey := ak } :=
    parse_envelope6 _ _ _ _ _ _ _ _ hw3 hw1 hwCF (hHmacCF _ _) hUuidCF hIv2CF
      (hEncCF _ _ _) (hB64CF _)
  have htakeC : (joinColon [apC.version, hc, item.uuid, iv2, ctc, apc64]).take 3 =
      apC.version := take3_joinColon_cons _ _ _ hw3
  have htakeK : (joinColon [apK.version, hk, item.uuid, iv1, ctk, apk64]).take 3 =
      apK.version := take3_joinColon_cons _ _ _ hvk3
  have hkeyDec : decryptText cr (encryptionComponentsFromString
      (joinColon [apK.version, hk, item.uuid, iv1, ctk, apk64]) keys.mk keys.ak) true =
      some ikey := by
    rw [hparseK, decryptText_hash_match cr _ true (by exact hhk ▸ rfl) (hHmacNE _ _)]
    simp [hctk, hRT]
  have hcontDec : ∀ p : EncryptionComponents,
      p = { encryptionVersion := some apC.version
            authHash := some hc
            uuid := some item.uuid
            iv := some iv2
            contentCiphertext := some ctc
            authParams := some apc64
            ciphertextToAuth := joinColon [apC.version, item.uuid, iv2, ctc]
            encryptionKey := ek
            authKey := ak } →
      decryptText cr p true = some pt := by
    intro p hp
    rw [hp, decryptText_hash_match cr _ true (by exact hhc ▸ rfl) (hHmacNE _ _)]
    simp [hctc, hRT]
  show (decryptItem cr encItem keys).content = .str pt ∧
       (decryptItem cr encItem keys).errorDecrypting = false
  rw [decryptItem]
  simp only [encItem, hcontent, heik]
  rw [if_neg (by rw [htakeC]; exact hw0)]
  rw [if_neg (by
    simp only [otruthy_some_iff]
    push_neg
    exact fun h => absurd h (joinColon_cons_cons_ne_nil _ _ _))]
  simp only [Option.getD_some, htakeK]
  have hlegF : ¬ (¬ apK.version = v002 ∧ ¬ apK.version = v003) := by
    rcases hvk with h | h <;> simp [h]
  rw [if_neg hlegF]
  rw [decide_eq_true hlegF]
  rw [if_neg (by rw [hparseK]; simp)]
  rw [hkeyDec]
  rw [if_neg (by simp [otruthy_some_iff, hIkeyNE])]
  simp only [Option.getD_some]
  rw [← hek, ← hak, hparseC]
  dsimp only
  obtain ⟨apv, hap⟩ := parseEmbeddedAuthParams_eq cr
    { uuid := item.uuid
      content := JSContent.str (joinColon [apC.version, hc, item.uuid, iv2, ctc, apc64])
      enc_item_key := some (joinColon [apK.version, hk, item.uuid, iv1, ctk, apk64])
      auth_hash := ah
      auth_params := item.auth_params
      errorDecrypting := item.errorDecrypting
      errorDecryptingValueChanged := item.errorDecryptingValueChanged } (some apc64)
  rw [hap]
  rw [if_neg (by simp)]
  have hhcne : otruthy (some hc) = true := by
    rw [otruthy_some_iff, hhc]
    exact hHmacNE _ _
  simp only [hhcne, not_true, if_false]
  rw [hcontDec _ rfl]
  rw [if_neg (by simp [otruthy_some_iff, hPtNE])]
  simp

/-- C1: for every supported protocol version (001, 002, 003) and every
content plaintext, decrypting the result of encrypting the content of an
item with a given set of keys, using those same keys, yields the original
content (the serialized content string is recovered verbatim and the item
ends with no decryption error).  The hypotheses are the standard facts
about the external primitives: AES decryption inverts encryption under the
same key and IV, hash, ciphertext and base64 output contain no colon and
are nonempty, ciphertext never collides with the 002 and 003 version tags,
and the UUID, the IV draws, the item key and the serialized content are
nonempty colon-free strings as the source produces them. -/
theorem C1_encrypt_decrypt_round_trip {J : Type} (cr : CryptoPrims J)
    (item : CItem J) (keys : ItemKeys) (ap : AuthParams)
    (itemKeyDraw ivKeyDraw ivContentDraw : Str)
    (hver : ap.version = v001 ∨ ap.version = v002 ∨ ap.version = v003)
    (hRT : ∀ t k iv, cr.aesDec (cr.aesEnc t k iv) k iv = t)
    (hEncCF : ∀ t k iv, ':' ∉ cr.aesEnc t k iv)
    (hEncNE : ∀ t k iv, cr.aesEnc t k iv ≠ [])
    (hEncNoPref : ∀ t k iv, ¬ (cr.aesEnc t k iv).take 3 = v002 ∧
      ¬ (cr.aesEnc t k iv).take 3 = v003)
    (hHmacCF : ∀ msg k, ':' ∉ cr.hmac256 msg k)
    (hHmacNE : ∀ msg k, cr.hmac256 msg k ≠ [])
    (hB64CF : ∀ s, ':' ∉ cr.base64Enc s)
    (hUuidCF : ':' ∉ item.uuid)
    (hIv1CF : ':' ∉ ivKeyDraw) (hIv2CF : ':' ∉ ivContentDraw)
    (hIkeyNE : itemKeyDraw ≠ [])
    (hPtNE : cr.jsonStringify (contentObjectOf cr item) ≠ []) :
    (decryptItem cr
        { item with
            content := .str (encryptItem cr item keys ap itemKeyDraw ivKeyDraw ivContentDraw).content
            enc_item_key := some (encryptItem cr item keys ap itemKeyDraw ivKeyDraw ivContentDraw).enc_item_key
            auth_hash := (encryptItem cr item keys ap itemKeyDraw ivKeyDraw ivContentDraw).auth_hash }
        keys).content = .str (cr.jsonStringify (contentObjectOf cr item)) ∧
    (decryptItem cr
        { item with
            content := .str (encryptItem cr item keys ap itemKeyDraw ivKeyDraw ivContentDraw).content
            enc_item_key := some (encryptItem cr item keys ap itemKeyDraw ivKeyDraw ivContentDraw).enc_item_key
            auth_hash := (encryptItem cr item keys ap itemKeyDraw ivKeyDraw ivContentDraw).auth_hash }
        keys).errorDecrypting = false := by
  rcases hver with h1 | h23
  · -- version 001
    set pt := cr.jsonStringify (contentObjectOf cr item) with hpt
    set ek := firstHalfOfKey itemKeyDraw with hek
    set ak := secondHalfOfKey itemKeyDraw with hak
    set eik := cr.aesEnc itemKeyDraw keys.mk [] with heik
    set ctc := cr.aesEnc pt ek [] with hctc
    have hps : encryptItem cr item keys ap itemKeyDraw ivKeyDraw ivContentDraw =
        { enc_item_key := eik
          auth_hash := some (cr.hmac256 (v001 ++ ctc) ak)
          content := v001 ++ ctc } := by
      simp [encryptItem, privateEncryptString, h1]
    rw [hps]
    rw [decryptItem]
    dsimp only
    rw [if_neg (by simp [v001, v000])]
    rw [if_neg (by
      simp only [not_not, otruthy_some_iff, heik]
      exact hEncNE _ _ _)]
    simp only [Option.getD_some]
    have hlegT : ¬ eik.take 3 = v002 ∧ ¬ eik.take 3 = v003 := hEncNoPref _ _ _
    rw [if_pos hlegT, decide_eq_false (not_not_intro hlegT)]
    rw [parse_envelope001]
    rw [if_neg (by simp [otruthy])]
    rw [decryptText_no_auth cr _ rfl]
    dsimp only
    simp only [Option.getD_some, Option.getD_none, heik, hRT]
    rw [if_neg (by simp [otruthy_some_iff, hIkeyNE])]
    simp only [Option.getD_some, ← hek, ← hak]
    rw [parse_envelope001]
    dsimp only [parseEmbeddedAuthParams]
    rw [if_neg (by simp [otruthy])]
    have hcond : (¬ otruthy (none : Option Str) = true) = True := by simp [otruthy]
    simp only [hcond, if_true]
    rw [decryptText_hash_match cr _ true rfl (hHmacNE _ _)]
    simp only [Option.getD_some, Option.getD_none, hctc, hRT]
    rw [if_neg (by simp [otruthy_some_iff, hPtNE])]
    simp
  · -- versions 002 and 003
    have hne1 : ¬ ap.version = v001 := by
      rcases h23 with h | h <;> rw [h] <;> decide
    have hps : encryptItem cr item keys ap itemKeyDraw ivKeyDraw ivContentDraw =
        { enc_item_key := privateEncryptString cr itemKeyDraw keys.mk keys.ak item.uuid ap ivKeyDraw
          auth_hash := none
          content := privateEncryptString cr (cr.jsonStringify (contentObjectOf cr item))
            (firstHalfOfKey itemKeyDraw) (secondHalfOfKey itemKeyDraw) item.uuid ap ivContentDraw } := by
      simp only [encryptItem, if_neg hne1]
    rw [hps]
    exact decryptItem_envelopes_ok cr item keys ap ap
      (cr.jsonStringify (contentObjectOf cr item)) itemKeyDraw ivKeyDraw ivContentDraw none
      h23
      (by rcases h23 with h | h <;> simp [h, v002, v003])
      (by rcases h23 with h | h <;> rw [h] <;> decide)
      (by rcases h23 with h | h <;> rw [h] <;> decide)
      (by rcases h23 with h | h <;> simp [h, v002, v003])
      hRT hEncCF hHmacCF hHmacNE hB64CF hUuidCF hIv1CF hIv2CF hIkeyNE hPtNE

/-- Witness for C1: the round trip evaluated with the concrete stand-in
primitives on version 003, a one-character UUID and content. -/
theorem C1_encrypt_decrypt_round_trip_witness :
    (decryptItem WC.cr
        { uuid := ['u'], auth_params := none
          errorDecrypting := false, errorDecryptingValueChanged := false
          content :=
            .str (encryptItem WC.cr
              { uuid := ['u'], content := .obj ['c'], enc_item_key := none, auth_hash := none
                auth_params := none, errorDecrypting := false, errorDecryptingValueChanged := false }
              { mk := ['m'], ak := ['a'] } { version := v003, payload := ['p'] }
              ['k', '1', 'k', '2'] ['i'] ['j']).content
          enc_item_key :=
            some (encryptItem WC.cr
              { uuid := ['u'], content := .obj ['c'], enc_item_key := none, auth_hash := none
                auth_params := none, errorDecrypting := false, errorDecryptingValueChanged := false }
              { mk := ['m'], ak := ['a'] } { version := v003, payload := ['p'] }
              ['k', '1', 'k', '2'] ['i'] ['j']).enc_item_key
          auth_hash :=
            (encryptItem WC.cr
              { uuid := ['u'], content := .obj ['c'], enc_item_key := none, auth_hash := none
                auth_params := none, errorDecrypting := false, errorDecryptingValueChanged := false }
              { mk := ['m'], ak := ['a'] } { version := v003, payload := ['p'] }
              ['k', '1', 'k', '2'] ['i'] ['j']).auth_hash }
        { mk := ['m'], ak := ['a'] }).content =
      .str (WC.cr.jsonStringify (contentObjectOf WC.cr
        { uuid := ['u'], content := .obj ['c'], enc_item_key := none, auth_hash := none
          auth_params := none, errorDecrypting := false, errorDecryptingValueChanged := false })) ∧
    (decryptItem WC.cr
        { uuid := ['u'], auth_params := none
          errorDecrypting := false, errorDecryptingValueChanged := false
          content :=
            .str (encryptItem WC.cr
              { uuid := ['u'], content := .obj ['c'], enc_item_key := none, auth_hash := none
                auth_params := none, errorDecrypting := false, errorDecryptingValueChanged := false }
              { mk := ['m'], ak := ['a'] } { version := v003, payload := ['p'] }
              ['k', '1', 'k', '2'] ['i'] ['j']).content
          enc_item_key :=
            some (encryptItem WC.cr
              { uuid := ['u'], content := .obj ['c'], enc_item_key := none, auth_hash := none
                auth_params := none, errorDecrypting := false, errorDecryptingValueChanged := false }
              { mk := ['m'], ak := ['a'] } { version := v003, payload := ['p'] }
              ['k', '1', 'k', '2'] ['i'] ['j']).enc_item_key
          auth_hash :=
            (encryptItem WC.cr
              { uuid := ['u'], content := .obj ['c'], enc_item_key := none, auth_hash := none
                auth_params := none, errorDecrypting := false, errorDecryptingValueChanged := false }
              { mk := ['m'], ak := ['a'] } { version := v003, payload := ['p'] }
              ['k', '1', 'k', '2'] ['i'] ['j']).auth_hash }
        { mk := ['m'], ak := ['a'] }).errorDecrypting = false :=
  C1_encrypt_decrypt_round_trip WC.cr
    { uuid := ['u'], content := .obj ['c'], enc_item_key := none, auth_hash := none
      auth_params := none, errorDecrypting := false, errorDecryptingValueChanged := false }
    { mk := ['m'], ak := ['a'] } { version := v003, payload := ['p'] }
    ['k', '1', 'k', '2'] ['i'] ['j']
    (Or.inr (Or.inr rfl))
    WC.aesRoundTrip WC.aesEnc_colonFree WC.aesEnc_ne_nil WC.aesEnc_no_version_prefix
    WC.hmac_colonFree WC.hmac_ne_nil WC.base64Enc_colonFree
    (by decide) (by decide) (by decide) (by decide)
    (WC.jsonStringify_ne_nil _)

/-- Decryption failure of a content envelope with arbitrary fields when
either the uuid field is a different nonempty uuid or the stored hash does
not match the recomputed one: the item is marked errorDecrypting with the
changed flag raised and its content preserved. -/
theorem decryptItem_content_envelope_fails {J : Type} (cr : CryptoPrims J)
    (item : CItem J) (keys : ItemKeys) (apK apC : AuthParams)
    (hfield u iv ct apf ikey iv1 : Str)
    (hvk : apK.version = v002 ∨ apK.version = v003)
    (hw3 : apC.version.length = 3)
    (hw0 : ¬ apC.version = v000) (hw1 : ¬ apC.version = v001)
    (hwCF : ':' ∉ apC.version)
    (hRT : ∀ t k iv, cr.aesDec (cr.aesEnc t k iv) k iv = t)
    (hEncCF : ∀ t k iv, ':' ∉ cr.aesEnc t k iv)
    (hHmacCF : ∀ msg k, ':' ∉ cr.hmac256 msg k)
    (hHmacNE : ∀ msg k, cr.hmac256 msg k ≠ [])
    (hB64CF : ∀ s, ':' ∉ cr.base64Enc s)
    (hUuidCF : ':' ∉ item.uuid)
    (hIv1CF : ':' ∉ iv1)
    (hIkeyNE : ikey ≠ [])
    (hErr : item.errorDecrypting = false)
    (hHCF : ':' ∉ hfield) (hUCF : ':' ∉ u) (hIvCF : ':' ∉ iv) (hCtCF : ':' ∉ ct)
    (hApfCF : ':' ∉ apf)
    (hHashNE : hfield ≠ [])
    (hfail : (¬ u = [] ∧ ¬ u = item.uuid) ∨
      ¬ hfield = cr.hmac256 (joinColon [apC.version, u, iv, ct]) (secondHalfOfKey ikey)) :
    let tItem : CItem J :=
      { item with
          content := .str (joinColon [apC.version, hfield, u, iv, ct, apf])
          enc_item_key := some (privateEncryptString cr ikey keys.mk keys.ak
            item.uuid apK iv1)
          auth_hash := none }
    (decryptItem cr tItem keys).errorDecrypting = true ∧
    (decryptItem cr tItem keys).errorDecryptingValueChanged = true ∧
    (decryptItem cr tItem keys).content =
      .str (joinColon [apC.version, hfield, u, iv, ct, apf]) := by
  intro tItem
  have hvk3 : apK.version.length = 3 := by
    rcases hvk with h | h <;> simp [h, v002, v003]
  have hvk1 : ¬ apK.version = v001 := by
    rcases hvk with h | h <;> rw [h] <;> decide
  have hvkCF : ':' ∉ apK.version := by
    rcases hvk with h | h <;> simp [h, v002, v003]
  set ek := firstHalfOfKey ikey with hek
  set ak := secondHalfOfKey ikey with hak
  set ctk := cr.aesEnc ikey keys.mk iv1 with hctk
  set hk := cr.hmac256 (joinColon [apK.version, item.uuid, iv1, ctk]) keys.ak with hhk
  set apk64 := cr.base64Enc (cr.stringifyAuthParams apK) with hapk64
  have heik : privateEncryptString cr ikey keys.mk keys.ak item.uuid apK iv1 =
      joinColon [apK.version, hk, item.uuid, iv1, ctk, apk64] := by
    rw [privateEncryptString, if_neg hvk1]
  have hparseK : encryptionComponentsFromString
      (joinColon [apK.version, hk, item.uuid, iv1, ctk, apk64]) keys.mk keys.ak =
      { encryptionVersion := some apK.version
        authHash := some hk
        uuid := some item.uuid
        iv := some iv1
        contentCiphertext := some ctk
        authParams := some apk64
        ciphertextToAuth := joinColon [apK.version, item.uuid, iv1, ctk]
        encryptionKey := keys.mk
        authKey := keys.ak } :=
    parse_envelope6 _ _ _ _ _ _ _ _ hvk3 hvk1 hvkCF (hHmacCF _ _) hUuidCF hIv1CF
      (hEncCF _ _ _) (hB64CF _)
  have hparseC : encryptionComponentsFromString
      (joinColon [apC.version, hfield, u, iv, ct, apf]) ek ak =
      { encryptionVersion := some apC.version
        authHash := some hfield
        uuid := some u
        iv := some iv
        contentCiphertext := some ct
        authParams := some apf
        ciphertextToAuth := joinColon [apC.version, u, iv, ct]
        encryptionKey := ek
        authKey := ak } :=
    parse_envelope6 _ _ _ _ _ _ _ _ hw3 hw1 hwCF hHCF hUCF hIvCF hCtCF hApfCF
  have htakeC : (joinColon [apC.version, hfield, u, iv, ct, apf]).take 3 =
      apC.version := take3_joinColon_cons _ _ _ hw3
  have htakeK : (joinColon [apK.version, hk, item.uuid, iv1, ctk, apk64]).take 3 =
      apK.version := take3_joinColon_cons _ _ _ hvk3
  have hkeyDec : decryptText cr (encryptionComponentsFromString
      (joinColon [apK.version, hk, item.uuid, iv1, ctk, apk64]) keys.mk keys.ak) true =
      some ikey := by
    rw [hparseK, decryptText_hash_match cr _ true (by exact hhk ▸ rfl) (hHmacNE _ _)]
    simp [hctk, hRT]
  show (decryptItem cr tItem keys).errorDecrypting = true ∧
       (decryptItem cr tItem keys).errorDecryptingValueChanged = true ∧
       (decryptItem cr tItem keys).content =
         .str (joinColon [apC.version, hfield, u, iv, ct, apf])
  rw [decryptItem]
  simp only [tItem, heik]
  rw [if_neg (by rw [htakeC]; exact hw0)]
  rw [if_neg (by
    simp only [otruthy_some_iff]
    push_neg
    exact fun h => absurd h (joinColon_cons_cons_ne_nil _ _ _))]
  simp only [Option.getD_some, htakeK]
  have hlegF : ¬ (¬ apK.version = v002 ∧ ¬ apK.version = v003) := by
    rcases hvk with h | h <;> simp [h]
  rw [if_neg hlegF]
  rw [decide_eq_true hlegF]
  rw [if_neg (by rw [hparseK]; simp)]
  rw [hkeyDec]
  rw [if_neg (by simp [otruthy_some_iff, hIkeyNE])]
  simp only [Option.getD_some]
  rw [← hek, ← hak, hparseC]
  dsimp only
  obtain ⟨apv, hap⟩ := parseEmbeddedAuthParams_eq cr
    { uuid := item.uuid
      content := JSContent.str (joinColon [apC.version, hfield, u, iv, ct, apf])
      enc_item_key := some (joinColon [apK.version, hk, item.uuid, iv1, ctk, apk64])
      auth_hash := none
      auth_params := item.auth_params
      errorDecrypting := item.errorDecrypting
      errorDecryptingValueChanged := item.errorDecryptingValueChanged } (some apf)
  rw [hap]
  by_cases hu : otruthy (some u) = true ∧ ¬ u = item.uuid
  · rw [if_pos (by simpa using hu)]
    simp [markErrorDecrypting, hErr]
  · rw [if_neg (by simpa using hu)]
    rcases hfail with ⟨h1, h2⟩ | hmis
    · exact absurd ⟨(otruthy_some_iff u).mpr h1, h2⟩ hu
    · have hhfne : otruthy (some hfield) = true := (otruthy_some_iff hfield).mpr hHashNE
      simp only [hhfne, not_true, if_false]
      rw [decryptText_hash_mismatch cr _ true hfield rfl hHashNE (by rw [hak] at hmis; exact hmis)]
      rw [if_pos (by simp [otruthy])]
      simp [markErrorDecrypting, hErr]

/-- C2: for a 002 or 003 envelope, altering the uuid, the iv or the
content ciphertext field (any bit flip yields a different colon-free
field) makes decryptItem fail the authentication: the item is marked
errorDecrypting, errorDecryptingValueChanged is raised, and the stored
ciphertext content is preserved verbatim.  The tampered triple u2, ivT,
ctT replaces the uuid, iv and ciphertext fields; the hypothesis requires
either a changed nonempty uuid field, or an unchanged uuid with an HMAC
mismatch on the altered authenticated data, which any bit flip produces
under collision resistance. -/
theorem C2_tamper_detection {J : Type} (cr : CryptoPrims J)
    (item : CItem J) (keys : ItemKeys) (ap : AuthParams)
    (itemKeyDraw ivKeyDraw iv2 u2 ivT ctT : Str)
    (hvk : ap.version = v002 ∨ ap.version = v003)
    (hRT : ∀ t k iv, cr.aesDec (cr.aesEnc t k iv) k iv = t)
    (hEncCF : ∀ t k iv, ':' ∉ cr.aesEnc t k iv)
    (hHmacCF : ∀ msg k, ':' ∉ cr.hmac256 msg k)
    (hHmacNE : ∀ msg k, cr.hmac256 msg k ≠ [])
    (hB64CF : ∀ s, ':' ∉ cr.base64Enc s)
    (hUuidCF : ':' ∉ item.uuid)
    (hIv1CF : ':' ∉ ivKeyDraw)
    (hIkeyNE : itemKeyDraw ≠ [])
    (hErr : item.errorDecrypting = false)
    (hU2CF : ':' ∉ u2) (hIvTCF : ':' ∉ ivT) (hCtTCF : ':' ∉ ctT)
    (hTamper :
      (¬ u2 = [] ∧ ¬ u2 = item.uuid) ∨
      (u2 = item.uuid ∧
        ¬ cr.hmac256
            (joinColon [ap.version, item.uuid, iv2,
              cr.aesEnc (cr.jsonStringify (contentObjectOf cr item))
                (firstHalfOfKey itemKeyDraw) iv2])
            (secondHalfOfKey itemKeyDraw) =
          cr.hmac256 (joinColon [ap.version, u2, ivT, ctT])
            (secondHalfOfKey itemKeyDraw))) :
    let tamperedContent := joinColon [ap.version,
      cr.hmac256
        (joinColon [ap.version, item.uuid, iv2,
          cr.aesEnc (cr.jsonStringify (contentObjectOf cr item))
            (firstHalfOfKey itemKeyDraw) iv2])
        (secondHalfOfKey itemKeyDraw),
      u2, ivT, ctT, cr.base64Enc (cr.stringifyAuthParams ap)]
    let tItem : CItem J :=
      { item with
          content := .str tamperedContent
          enc_item_key := some (privateEncryptString cr itemKeyDraw keys.mk keys.ak
            item.uuid ap ivKeyDraw)
          auth_hash := none }
    (decryptItem cr tItem keys).errorDecrypting = true ∧
    (decryptItem cr tItem keys).errorDecryptingValueChanged = true ∧
    (decryptItem cr tItem keys).content = .str tamperedContent := by
  intro tamperedContent tItem
  refine decryptItem_content_envelope_fails cr item keys ap ap _ u2 ivT ctT _
    itemKeyDraw ivKeyDraw hvk
    (by rcases hvk with h | h <;> simp [h, v002, v003])
    (by rcases hvk with h | h <;> rw [h] <;> decide)
    (by rcases hvk with h | h <;> rw [h] <;> decide)
    (by rcases hvk with h | h <;> simp [h, v002, v003])
    hRT hEncCF hHmacCF hHmacNE hB64CF hUuidCF hIv1CF hIkeyNE hErr
    (hHmacCF _ _) hU2CF hIvTCF hCtTCF (hB64CF _) (hHmacNE _ _) ?_
  rcases hTamper with ⟨h1, h2⟩ | ⟨h1, h2⟩
  · exact Or.inl ⟨h1, h2⟩
  · exact Or.inr h2

/-- Witness for C2: a concrete 002 envelope whose iv field is changed from
the one the hash was computed over, evaluated with the stand-in
primitives. -/
theorem C2_tamper_detection_witness :
    let tamperedContent := joinColon [v002,
      WC.cr.hmac256
        (joinColon [v002, ['u'], ['j'],
          WC.cr.aesEnc (WC.cr.jsonStringify (contentObjectOf WC.cr
            { uuid := ['u'], content := .obj ['c'], enc_item_key := none, auth_hash := none
              auth_params := none, errorDecrypting := false, errorDecryptingValueChanged := false }))
            (firstHalfOfKey ['k', '1', 'k', '2']) ['j']])
        (secondHalfOfKey ['k', '1', 'k', '2']),
      ['u'], ['x'], ['E', 'J', 'c'], WC.cr.base64Enc (WC.cr.stringifyAuthParams
        { version := v002, payload := ['p'] })]
    let tItem : CItem Str :=
      { uuid := ['u'], content := .str tamperedContent
        enc_item_key := some (privateEncryptString WC.cr ['k', '1', 'k', '2'] ['m'] ['a']
          ['u'] { version := v002, payload := ['p'] } ['i'])
        auth_hash := none
        auth_params := none, errorDecrypting := false, errorDecryptingValueChanged := false }
    (decryptItem WC.cr tItem { mk := ['m'], ak := ['a'] }).errorDecrypting = true ∧
    (decryptItem WC.cr tItem { mk := ['m'], ak := ['a'] }).errorDecryptingValueChanged = true ∧
    (decryptItem WC.cr tItem { mk := ['m'], ak := ['a'] }).content = .str tamperedContent :=
  C2_tamper_detection WC.cr
    { uuid := ['u'], content := .obj ['c'], enc_item_key := none, auth_hash := none
      auth_params := none, errorDecrypting := false, errorDecryptingValueChanged := false }
    { mk := ['m'], ak := ['a'] } { version := v002, payload := ['p'] }
    ['k', '1', 'k', '2'] ['i'] ['j'] ['u'] ['x'] ['E', 'J', 'c']
    (Or.inl rfl)
    WC.aesRoundTrip WC.aesEnc_colonFree WC.hmac_colonFree WC.hmac_ne_nil
    WC.base64Enc_colonFree
    (by decide) (by decide) (by decide) rfl
    (by decide) (by decide) (by decide)
    (Or.inr (by decide))

/-- C9 counterexample: the claim says decrypting an item whose content
envelope has an unrecognized version prefix fails with a malformed
envelope error.  The code has no such error: here a concrete envelope with
version prefix 004 and a verifying auth hash decrypts successfully, with
no error flag of any kind set. -/
theorem C9_unrecognized_version_counterexample :
    (decryptItem WC.cr
        { uuid := ['u']
          content := .str (privateEncryptString WC.cr
            (WC.cr.jsonStringify (contentObjectOf WC.cr
              { uuid := ['u'], content := .obj ['c'], enc_item_key := none, auth_hash := none
                auth_params := none, errorDecrypting := false, errorDecryptingValueChanged := false }))
            (firstHalfOfKey ['k', '1', 'k', '2']) (secondHalfOfKey ['k', '1', 'k', '2'])
            ['u'] { version := ['0', '0', '4'], payload := ['p'] } ['j'])
          enc_item_key := some (privateEncryptString WC.cr ['k', '1', 'k', '2'] ['m'] ['a']
            ['u'] { version := v002, payload := ['p'] } ['i'])
          auth_hash := none
          auth_params := none, errorDecrypting := false, errorDecryptingValueChanged := false }
        { mk := ['m'], ak := ['a'] }).errorDecrypting = false ∧
    (decryptItem WC.cr
        { uuid := ['u']
          content := .str (privateEncryptString WC.cr
            (WC.cr.jsonStringify (contentObjectOf WC.cr
              { uuid := ['u'], content := .obj ['c'], enc_item_key := none, auth_hash := none
                auth_params := none, errorDecrypting := false, errorDecryptingValueChanged := false }))
            (firstHalfOfKey ['k', '1', 'k', '2']) (secondHalfOfKey ['k', '1', 'k', '2'])
            ['u'] { version := ['0', '0', '4'], payload := ['p'] } ['j'])
          enc_item_key := some (privateEncryptString WC.cr ['k', '1', 'k', '2'] ['m'] ['a']
            ['u'] { version := v002, payload := ['p'] } ['i'])
          auth_hash := none
          auth_params := none, errorDecrypting := false, errorDecryptingValueChanged := false }
        { mk := ['m'], ak := ['a'] }).content = .str ['J', 'c'] := by
  decide

/-- C9 amended: decryptItem performs no version or field-count validation
on the content envelope.  An envelope carrying any three-character version
tag other than the plaintext sentinel 000 and the legacy 001 is parsed
positionally, and when its auth hash verifies it decrypts successfully,
unrecognized version tags included; when decryption of such an envelope
fails it does so through the authentication path, marking errorDecrypting
exactly as an authentication failure does, with no distinct malformed
envelope error. -/
theorem C9_amended_no_version_validation {J : Type} (cr : CryptoPrims J)
    (item : CItem J) (keys : ItemKeys) (apK apC : AuthParams)
    (ikey iv1 iv2 : Str) (ah : Option Str)
    (hvk : apK.version = v002 ∨ apK.version = v003)
    (_hunrecognized : ¬ apC.version = v002 ∧ ¬ apC.version = v003)
    (hw3 : apC.version.length = 3)
    (hw0 : ¬ apC.version = v000) (hw1 : ¬ apC.version = v001)
    (hwCF : ':' ∉ apC.version)
    (hRT : ∀ t k iv, cr.aesDec (cr.aesEnc t k iv) k iv = t)
    (hEncCF : ∀ t k iv, ':' ∉ cr.aesEnc t k iv)
    (hHmacCF : ∀ msg k, ':' ∉ cr.hmac256 msg k)
    (hHmacNE : ∀ msg k, cr.hmac256 msg k ≠ [])
    (hB64CF : ∀ s, ':' ∉ cr.base64Enc s)
    (hUuidCF : ':' ∉ item.uuid)
    (hIv1CF : ':' ∉ iv1) (hIv2CF : ':' ∉ iv2)
    (hIkeyNE : ikey ≠ [])
    (hPtNE : cr.jsonStringify (contentObjectOf cr item) ≠ []) :
    let encItem : CItem J :=
      { item with
          content := .str (privateEncryptString cr
            (cr.jsonStringify (contentObjectOf cr item))
            (firstHalfOfKey ikey) (secondHalfOfKey ikey) item.uuid apC iv2)
          enc_item_key := some (privateEncryptString cr ikey keys.mk keys.ak
            item.uuid apK iv1)
          auth_hash := ah }
    (decryptItem cr encItem keys).content =
      .str (cr.jsonStringify (contentObjectOf cr item)) ∧
    (decryptItem cr encItem keys).errorDecrypting = false :=
  decryptItem_envelopes_ok cr item keys apK apC
    (cr.jsonStringify (contentObjectOf cr item)) ikey iv1 iv2 ah
    hvk hw3 hw0 hw1 hwCF hRT hEncCF hHmacCF hHmacNE hB64CF hUuidCF hIv1CF hIv2CF
    hIkeyNE hPtNE

/-- Witness for the amended C9: the unrecognized version 005 decrypting
successfully with the stand-in primitives. -/
theorem C9_amended_no_version_validation_witness :
    let encItem : CItem Str :=
      { uuid := ['w']
        content := .str (privateEncryptString WC.cr
          (WC.cr.jsonStringify (contentObjectOf WC.cr
            { uuid := ['w'], content := .obj ['d'], enc_item_key := none, auth_hash := none
              auth_params := none, errorDecrypting := false, errorDecryptingValueChanged := false }))
          (firstHalfOfKey ['q', '1', 'q', '2']) (secondHalfOfKey ['q', '1', 'q', '2'])
          ['w'] { version := ['0', '0', '5'], payload := ['z'] } ['t'])
        enc_item_key := some (privateEncryptString WC.cr ['q', '1', 'q', '2'] ['m'] ['a']
          ['w'] { version := v003, payload := ['z'] } ['s'])
        auth_hash := none
        auth_params := none, errorDecrypting := false, errorDecryptingValueChanged := false }
    (decryptItem WC.cr encItem { mk := ['m'], ak := ['a'] }).content =
      .str (WC.cr.jsonStringify (contentObjectOf WC.cr
        { uuid := ['w'], content := .obj ['d'], enc_item_key := none, auth_hash := none
          auth_params := none, errorDecrypting := false, errorDecryptingValueChanged := false })) ∧
    (decryptItem WC.cr encItem { mk := ['m'], ak := ['a'] }).errorDecrypting = false :=
  C9_amended_no_version_validation WC.cr
    { uuid := ['w'], content := .obj ['d'], enc_item_key := none, auth_hash := none
      auth_params := none, errorDecrypting := false, errorDecryptingValueChanged := false }
    { mk := ['m'], ak := ['a'] } { version := v003, payload := ['z'] }
    { version := ['0', '0', '5'], payload := ['z'] }
    ['q', '1', 'q', '2'] ['s'] ['t'] none
    (Or.inr rfl)
    (by decide) (by decide) (by decide) (by decide) (by decide)
    WC.aesRoundTrip WC.aesEnc_colonFree WC.hmac_colonFree WC.hmac_ne_nil
    WC.base64Enc_colonFree
    (by decide) (by decide) (by decide) (by decide)
    (WC.jsonStringify_ne_nil _)

/-- C10: for an item whose string content begins with the 000 plaintext
sentinel, decryptItem performs no authentication: when the remainder
base64-decodes and parses as JSON the parsed object replaces the content,
otherwise the item is returned unchanged; errorDecrypting keeps its value
in both cases, and the result is identical under any other primitives and
keys that agree only on base64 decoding and JSON parsing. -/
theorem C10_plaintext_sentinel_no_auth {J : Type} (cr cr2 : CryptoPrims J)
    (item : CItem J) (keys keys2 : ItemKeys) (s : Str)
    (hc : item.content = .str s) (h0 : s.take 3 = v000)
    (hb : cr2.base64Dec = cr.base64Dec) (hj : cr2.jsonParse = cr.jsonParse) :
    (decryptItem cr item keys =
      match cr.base64Dec (s.drop 3) with
      | some decoded =>
        match cr.jsonParse decoded with
        | some j => { item with content := .obj j }
        | none => item
      | none => item) ∧
    (decryptItem cr item keys).errorDecrypting = item.errorDecrypting ∧
    decryptItem cr2 item keys2 = decryptItem cr item keys := by
  have hone : ∀ (c : CryptoPrims J) (k : ItemKeys), c.base64Dec = cr.base64Dec →
      c.jsonParse = cr.jsonParse →
      decryptItem c item k =
        match cr.base64Dec (s.drop 3) with
        | some decoded =>
          match cr.jsonParse decoded with
          | some j => { item with content := .obj j }
          | none => item
        | none => item := by
    intro c k hcb hcj
    rw [decryptItem]
    simp only [hc]
    rw [if_pos h0, hcb, hcj]
    cases hd : cr.base64Dec (s.drop 3) with
    | none => simp [hd]
    | some d =>
      cases hj2 : cr.jsonParse d with
      | none => simp [hd, hj2]
      | some j => simp [hd, hj2]
  have h1 := hone cr keys rfl rfl
  have h2 := hone cr2 keys2 hb hj
  refine ⟨h1, ?_, h2.trans h1.symm⟩
  rw [h1]
  cases hd : cr.base64Dec (s.drop 3) with
  | none => simp [hd]
  | some d =>
    cases hj2 : cr.jsonParse d with
    | none => simp [hd, hj2]
    | some j => simp [hd, hj2]

/-- Witness for C10: a concrete 000 content with a decodable remainder,
evaluated with two different primitive bundles agreeing on decoding. -/
theorem C10_plaintext_sentinel_no_auth_witness :
    (decryptItem WC.cr
        { uuid := ['u'], content := .str (v000 ++ ['B', 'z']), enc_item_key := some ['Q']
          auth_hash := none, auth_params := none
          errorDecrypting := false, errorDecryptingValueChanged := false }
        { mk := ['m'], ak := ['a'] } =
      match WC.cr.base64Dec ((v000 ++ ['B', 'z']).drop 3) with
      | some decoded =>
        match WC.cr.jsonParse decoded with
        | some j =>
          { uuid := ['u'], content := .obj j, enc_item_key := some ['Q']
            auth_hash := none, auth_params := none
            errorDecrypting := false, errorDecryptingValueChanged := false }
        | none =>
          { uuid := ['u'], content := .str (v000 ++ ['B', 'z']), enc_item_key := some ['Q']
            auth_hash := none, auth_params := none
            errorDecrypting := false, errorDecryptingValueChanged := false }
      | none =>
        { uuid := ['u'], content := .str (v000 ++ ['B', 'z']), enc_item_key := some ['Q']
          auth_hash := none, auth_params := none
          errorDecrypting := false, errorDecryptingValueChanged := false }) ∧
    (decryptItem WC.cr
        { uuid := ['u'], content := .str (v000 ++ ['B', 'z']), enc_item_key := some ['Q']
          auth_hash := none, auth_params := none
          errorDecrypting := false, errorDecryptingValueChanged := false }
        { mk := ['m'], ak := ['a'] }).errorDecrypting = false ∧
    decryptItem { WC.cr with hmac256 := fun _ _ => ['X'], aesDec := fun _ _ _ => ['Y'] }
        { uuid := ['u'], content := .str (v000 ++ ['B', 'z']), enc_item_key := some ['Q']
          auth_hash := none, auth_params := none
          errorDecrypting := false, errorDecryptingValueChanged := false }
        { mk := ['n'], ak := ['b'] } =
      decryptItem WC.cr
        { uuid := ['u'], content := .str (v000 ++ ['B', 'z']), enc_item_key := some ['Q']
          auth_hash := none, auth_params := none
          errorDecrypting := false, errorDecryptingValueChanged := false }
        { mk := ['m'], ak := ['a'] } :=
  C10_plaintext_sentinel_no_auth WC.cr
    { WC.cr with hmac256 := fun _ _ => ['X'], aesDec := fun _ _ _ => ['Y'] }
    { uuid := ['u'], content := .str (v000 ++ ['B', 'z']), enc_item_key := some ['Q']
      auth_hash := none, auth_params := none
      errorDecrypting := false, errorDecryptingValueChanged := false }
    { mk := ['m'], ak := ['a'] } { mk := ['n'], ak := ['b'] }
    (v000 ++ ['B', 'z']) rfl (by decide) rfl rfl

/-- C7: for protocol version 003 the per-user keys are derived by taking
pw_salt as the SHA-256 of the colon-joined string identifier, SF, version,
pw_cost, pw_nonce, running PBKDF2 with hasher SHA-512, iteration count
pw_cost and 768-bit output (keySize 768 / 32 words) over the password and
that salt, and splitting the output into three equal thirds pw, mk, ak in
that order.  The hypothesis fixes the only external fact used: the hex
output of the 768-bit derivation is 192 characters long. -/
theorem C7_key_derivation_003 {J : Type} (cr : CryptoPrims J)
    (password : Str) (ap : KDFAuthParams) (idf : Str)
    (hv : ap.version = v003) (hid : ap.identifier = some idf) (hidNE : ¬ idf = [])
    (hlen : (cr.pbkdf2Raw password
        (cr.sha256 (joinColon [idf, ['S', 'F'], v003, natToStr ap.pw_cost, ap.pw_nonce]))
        { keySize := 24, hasher := .SHA512, iterations := ap.pw_cost }).length = 192) :
    let pw_salt := cr.sha256
      (joinColon [idf, ['S', 'F'], v003, natToStr ap.pw_cost, ap.pw_nonce])
    let output := cr.pbkdf2Raw password pw_salt
      { keySize := DefaultPBKDF2Length / 32, hasher := .SHA512, iterations := ap.pw_cost }
    computeEncryptionKeysForUser cr password ap =
      some { pw := output.take 64, mk := (output.drop 64).take 64, ak := output.drop 128 } ∧
    output.take 64 ++ ((output.drop 64).take 64 ++ output.drop 128) = output ∧
    (output.take 64).length = 64 ∧ ((output.drop 64).take 64).length = 64 ∧
    (output.drop 128).length = 64 := by
  intro pw_salt output
  have hout : output = cr.pbkdf2Raw password pw_salt
      { keySize := 24, hasher := .SHA512, iterations := ap.pw_cost } := rfl
  have hlen' : output.length = 192 := by rw [hout]; exact hlen
  have heq : computeEncryptionKeysForUser cr password ap =
      some (userKeysOfList (generateSymmetricKeyPair cr password pw_salt ap.pw_cost)) := by
    rw [computeEncryptionKeysForUser, if_pos hv]
    rw [hid]
    rw [if_neg (by simp [otruthy, hidNE])]
    simp only [Option.getD_some]
    rw [generateSalt, hv]
  have e2 : (output.take 128).drop 64 = (output.drop 64).take 64 := by
    rw [List.drop_take]
  have e3 : (output.take 192).drop 128 = output.drop 128 := by
    rw [List.take_of_length_le (by rw [hlen'])]
  have hsym : generateSymmetricKeyPair cr password pw_salt ap.pw_cost =
      [output.take 64, (output.drop 64).take 64, output.drop 128] := by
    rw [generateSymmetricKeyPair]
    simp only [show sfPbkdf2 cr password pw_salt ap.pw_cost DefaultPBKDF2Length = output
      from rfl, hlen']
    norm_num [e2, e3]
  constructor
  · rw [heq, hsym]
    rfl
  have hcat : (output.drop 64).take 64 ++ output.drop 128 = output.drop 64 := by
    have h128 : output.drop 128 = (output.drop 64).drop 64 := by
      rw [List.drop_drop]
    rw [h128, List.take_append_drop]
  refine ⟨?_, ?_, ?_, ?_⟩
  · rw [hcat, List.take_append_drop]
  · simp [hlen']
  · simp [hlen']
  · simp [hlen']

set_option maxRecDepth 4000 in
/-- Witness for C7: derivation evaluated with the stand-in primitives at a
concrete identifier, nonce and cost. -/
theorem C7_key_derivation_003_witness :
    let pw_salt := WC.cr.sha256
      (joinColon [['e'], ['S', 'F'], v003, natToStr 2, ['n']])
    let output := WC.cr.pbkdf2Raw ['p'] pw_salt
      { keySize := DefaultPBKDF2Length / 32, hasher := .SHA512, iterations := 2 }
    computeEncryptionKeysForUser WC.cr ['p']
        { version := v003, pw_cost := 2, pw_nonce := ['n'], pw_salt := [], identifier := some ['e'] } =
      some { pw := output.take 64, mk := (output.drop 64).take 64, ak := output.drop 128 } ∧
    output.take 64 ++ ((output.drop 64).take 64 ++ output.drop 128) = output ∧
    (output.take 64).length = 64 ∧ ((output.drop 64).take 64).length = 64 ∧
    (output.drop 128).length = 64 :=
  C7_key_derivation_003 WC.cr ['p']
    { version := v003, pw_cost := 2, pw_nonce := ['n'], pw_salt := [], identifier := some ['e'] }
    ['e'] rfl rfl (by decide) (by decide)

/-- C3 counterexample: the claim asserts dirty iff dirtyCount positive at
every reachable point, including while a sync request is in flight after
the submission batch has been prepared.  Exactly there it fails: sync
resets dirtyCount to 0 on each submitted item while leaving dirty true.
Concretely, a store holding one freshly dirtied item, after the pre-flight
reset over the submission batch, holds an item with dirty true and
dirtyCount 0, so the claimed equivalence is false at that input. -/
theorem C3_dirty_iff_counterexample :
    (resetDirtyCounters
        { items := [{ uuid := ['a'], content_type := some ['N'], refs := [], deleted := false
                      dirty := true, dirtyCount := 1, dummy := false, errorDecrypting := false
                      errorDecryptingValueChanged := false, created_at := 0, referencingObjects := [] }]
          itemsPendingRemoval := [], missedReferences := [], acceptableContentTypes := none }
        (syncSubItems
          { items := [{ uuid := ['a'], content_type := some ['N'], refs := [], deleted := false
                        dirty := true, dirtyCount := 1, dummy := false, errorDecrypting := false
                        errorDecryptingValueChanged := false, created_at := 0, referencingObjects := [] }]
            itemsPendingRemoval := [], missedReferences := [], acceptableContentTypes := none })).findItem ['a'] =
      some { uuid := ['a'], content_type := some ['N'], refs := [], deleted := false
             dirty := true, dirtyCount := 0, dummy := false, errorDecrypting := false
             errorDecryptingValueChanged := false, created_at := 0, referencingObjects := [] } ∧
    ¬ ((true : Bool) = true ↔ 0 < 0) := by
  constructor
  · rfl
  · simp

/-- C3 amended: the equivalence dirty iff dirtyCount positive holds after
every SFItem.setDirty call, which is the only mutation path of the pair
outside the sync engine; it is deliberately violated between the sync
batch preparation (which zeroes dirtyCount on the submitted items, leaving
dirty true) and the response processing that clears or re-dirties them. -/
theorem C3_dirty_iff_amended :
    (∀ (it : Item) (d : Bool),
      ((it.setDirty d).dirty = true ↔ 0 < (it.setDirty d).dirtyCount)) ∧
    (resetDirtyCounters
        { items := [{ uuid := ['a'], content_type := some ['N'], refs := [], deleted := false
                      dirty := true, dirtyCount := 1, dummy := false, errorDecrypting := false
                      errorDecryptingValueChanged := false, created_at := 0, referencingObjects := [] }]
          itemsPendingRemoval := [], missedReferences := [], acceptableContentTypes := none }
        (syncSubItems
          { items := [{ uuid := ['a'], content_type := some ['N'], refs := [], deleted := false
                        dirty := true, dirtyCount := 1, dummy := false, errorDecrypting := false
                        errorDecryptingValueChanged := false, created_at := 0, referencingObjects := [] }]
            itemsPendingRemoval := [], missedReferences := [], acceptableContentTypes := none })).findItem ['a'] =
      some { uuid := ['a'], content_type := some ['N'], refs := [], deleted := false
             dirty := true, dirtyCount := 0, dummy := false, errorDecrypting := false
             errorDecryptingValueChanged := false, created_at := 0, referencingObjects := [] } := by
  constructor
  · intro it d
    cases d <;> simp [Item.setDirty]
  · rfl

/-- C4: the claim says that when a batch maps an item whose UUID matches a
pending missed-reference entry, the edge is installed between the waiting
item and the item with that UUID.  The code instead relates the waiting
item to the last model of the batch: the loop variable of the second
mapping pass leaks into the missed-references finalization.  Mapping first
an item a that references the absent b, then the batch [b, c], leaves the
back-reference of b empty while c wrongly gains a as a referencing object
and a wrongly gains a forward reference to c. -/
theorem C4_missed_reference_wrong_edge :
    let a : MapRecord := { uuid := ['a'], content_type := some ['N'], content := some [['b']]
                           deleted := false, dirty := none, dirtyCount := none
                           errorDecrypting := none, created_at := 0 }
    let b : MapRecord := { uuid := ['b'], content_type := some ['N'], content := some []
                           deleted := false, dirty := none, dirtyCount := none
                           errorDecrypting := none, created_at := 0 }
    let c : MapRecord := { uuid := ['c'], content_type := some ['N'], content := some []
                           deleted := false, dirty := none, dirtyCount := none
                           errorDecrypting := none, created_at := 0 }
    let m1 := ModelManager.empty.mapResponseItemsToLocalModels [a]
    let m2 := m1.mapResponseItemsToLocalModels [b, c]
    (m1.missedReferences.map (fun kv => kv.1) = [['b', ':', 'a']]) ∧
    ((m2.findItem ['b']).map (fun it => it.referencingObjects) = some []) ∧
    ((m2.findItem ['c']).map (fun it => it.referencingObjects) = some [['a']]) ∧
    ((m2.findItem ['a']).map (fun it => it.refs) = some [['b'], ['c']]) ∧
    m2.missedReferences = [] := by
  decide

/-! ## Lemmas about store lookup and update -/

theorem findItem_updateItem (m : ModelManager) (u u2 : Str) (f : Item → Item)
    (hf : ∀ it, (f it).uuid = it.uuid) :
    (m.updateItem u f).findItem u2 =
      if u = u2 then (m.findItem u2).map f else m.findItem u2 := by
  obtain ⟨l, pr, mr, act⟩ := m
  simp only [ModelManager.updateItem, ModelManager.findItem]
  induction l with
  | nil => cases Decidable.em (u = u2) with
    | inl h => simp [h]
    | inr h => simp [h]
  | cons a rest ih =>
    simp only [List.map_cons]
    by_cases hau : a.uuid = u
    · by_cases huu2 : u = u2
      · subst huu2
        rw [if_pos hau]
        rw [List.find?_cons_of_pos _ (by simp [hf, hau]),
            List.find?_cons_of_pos _ (by simp [hau])]
        simp
      · have ha2 : ¬ a.uuid = u2 := by rw [hau]; exact huu2
        rw [if_pos hau]
        rw [List.find?_cons_of_neg _ (by simp [hf, ha2]),
            List.find?_cons_of_neg _ (by simp [ha2])]
        rw [if_neg huu2] at ih ⊢
        exact ih
    · rw [if_neg hau]
      by_cases ha2 : a.uuid = u2
      · by_cases huu2 : u = u2
        · exact absurd (huu2 ▸ ha2) hau
        · rw [List.find?_cons_of_pos _ (by simp [ha2]),
              List.find?_cons_of_pos _ (by simp [ha2])]
          rw [if_neg huu2]
      · rw [List.find?_cons_of_neg _ (by simp [ha2]),
            List.find?_cons_of_neg _ (by simp [ha2])]
        exact ih

theorem findItem_eq_of_mem (m : ModelManager) (it : Item)
    (hmem : it ∈ m.items) (hnd : (m.items.map (fun x => x.uuid)).Nodup) :
    m.findItem it.uuid = some it := by
  obtain ⟨l, pr, mr, act⟩ := m
  simp only [ModelManager.findItem] at *
  induction l with
  | nil => simp at hmem
  | cons a rest ih =>
    simp only [List.map_cons, List.nodup_cons] at hnd
    rcases List.mem_cons.mp hmem with rfl | hmem2
    · rw [List.find?_cons_of_pos _ (by simp)]
    · have hne : ¬ a.uuid = it.uuid := by
        intro h
        exact hnd.1 (h ▸ List.mem_map_of_mem (fun x => x.uuid) hmem2)
      rw [List.find?_cons_of_neg _ (by simp [hne])]
      exact ih hmem2 hnd.2

theorem findItem_foldUpdate (m : ModelManager) (uuids : List Str) (u : Str)
    (f : Item → Item) (hf : ∀ it, (f it).uuid = it.uuid)
    (hid : ∀ it, f (f it) = f it) :
    (uuids.foldl (fun acc x => acc.updateItem x f) m).findItem u =
      if u ∈ uuids then (m.findItem u).map f else m.findItem u := by
  induction uuids generalizing m with
  | nil => simp
  | cons a rest ih =>
    simp only [List.foldl_cons]
    rw [ih]
    rw [findItem_updateItem m a u f hf]
    by_cases hau : a = u
    · subst hau
      by_cases hu : a ∈ rest
      · simp only [if_pos hu, if_pos rfl, List.mem_cons, true_or, if_pos]
        cases m.findItem a with
        | none => simp
        | some it => simp [hid]
      · simp [hu, if_pos rfl]
    · by_cases hu : u ∈ rest
      · simp [hau, hu, List.mem_cons]
      · have hnm : ¬ u ∈ a :: rest := by
          simp only [List.mem_cons, not_or]
          exact ⟨fun h => hau h.symm, hu⟩
        simp [hau, hu, hnm]

theorem findItem_applyInFlight_not_mem (m : ModelManager) (events : List Str)
    (u : Str) (hu : ¬ u ∈ events) :
    (applyInFlightDirtying m events).findItem u = m.findItem u := by
  induction events generalizing m with
  | nil => rfl
  | cons e rest ih =>
    simp only [List.mem_cons, not_or] at hu
    simp only [applyInFlightDirtying, List.foldl_cons]
    rw [show (List.foldl (fun acc u => acc.updateItem u (fun it => it.setDirty true))
      (m.updateItem e (fun it => it.setDirty true)) rest) =
      applyInFlightDirtying (m.updateItem e (fun it => it.setDirty true)) rest from rfl]
    rw [ih _ hu.2]
    rw [findItem_updateItem m e u (fun it => it.setDirty true) (fun it => rfl)]
    rw [if_neg (Ne.symm hu.1)]

theorem findItem_applyInFlight_mem (m : ModelManager) (events : List Str)
    (u : Str) (hu : u ∈ events) (it0 : Item) (h0 : m.findItem u = some it0) :
    ∃ it, (applyInFlightDirtying m events).findItem u = some it ∧
      it.dirty = true ∧ 0 < it.dirtyCount := by
  induction events generalizing m it0 with
  | nil => simp at hu
  | cons e rest ih =>
    simp only [applyInFlightDirtying, List.foldl_cons]
    rw [show (List.foldl (fun acc u => acc.updateItem u (fun it => it.setDirty true))
      (m.updateItem e (fun it => it.setDirty true)) rest) =
      applyInFlightDirtying (m.updateItem e (fun it => it.setDirty true)) rest from rfl]
    have hfind : (m.updateItem e (fun it => it.setDirty true)).findItem u =
        if e = u then some (it0.setDirty true) else some it0 := by
      rw [findItem_updateItem m e u (fun it => it.setDirty true) (fun it => rfl)]
      by_cases he : e = u <;> simp [he, h0]
    by_cases hur : u ∈ rest
    · by_cases he : e = u
      · exact ih _ hur _ (by rw [hfind, if_pos he])
      · exact ih _ hur _ (by rw [hfind, if_neg he])
    · have he : e = u := by
        rcases List.mem_cons.mp hu with h | h
        · exact h.symm
        · exact absurd h hur
      refine ⟨it0.setDirty true, ?_, rfl, by simp [Item.setDirty]⟩
      rw [findItem_applyInFlight_not_mem _ _ _ hur, hfind, if_pos he]

theorem syncSubItems_found (m : ModelManager) (u : Str)
    (hnd : (m.items.map (fun x => x.uuid)).Nodup) (hu : u ∈ syncSubItems m) :
    ∃ it, m.findItem u = some it ∧ it.dirty = true := by
  unfold syncSubItems at hu
  rw [List.mem_map] at hu
  obtain ⟨it, hit, rfl⟩ := hu
  have hit2 : it ∈ m.getDirtyItems := List.mem_of_mem_take hit
  unfold ModelManager.getDirtyItems at hit2
  have hmem : it ∈ m.items := List.mem_of_mem_filter hit2
  have hdirty : it.dirty = true := by
    have := List.of_mem_filter hit2
    simp only [decide_eq_true_eq] at this
    exact this.1
  exact ⟨it, findItem_eq_of_mem m it hmem hnd, hdirty⟩

/-- C5: on a successful sync response the dirty flag is cleared on exactly
those originally submitted items whose dirtyCount is 0 at
response-processing time; an item re-dirtied while the request was in
flight keeps dirty true, and items outside the submission batch are not
touched by the clearing step.  The flow modelled: the submission batch is
snapshot, its dirty counters are reset, arbitrary in-flight setDirty true
events occur, then the onSyncSuccess clearing step runs. -/
theorem C5_sync_success_clears_exactly_unredirtied (m : ModelManager)
    (events : List Str) (u : Str)
    (hnd : (m.items.map (fun x => x.uuid)).Nodup)
    (hu : u ∈ syncSubItems m) :
    (∃ it,
      (onSyncSuccessClear
          (applyInFlightDirtying (resetDirtyCounters m (syncSubItems m)) events)
          (syncSubItems m)).findItem u = some it ∧
      (it.dirty = true ↔ u ∈ events)) ∧
    (∀ u2, ¬ u2 ∈ syncSubItems m →
      (onSyncSuccessClear
          (applyInFlightDirtying (resetDirtyCounters m (syncSubItems m)) events)
          (syncSubItems m)).findItem u2 =
        (applyInFlightDirtying (resetDirtyCounters m (syncSubItems m)) events).findItem u2) := by
  obtain ⟨it0, h0, hd0⟩ := syncSubItems_found m u hnd hu
  have h1 : (resetDirtyCounters m (syncSubItems m)).findItem u =
      some { it0 with dirtyCount := 0 } := by
    rw [show resetDirtyCounters m (syncSubItems m) =
      (syncSubItems m).foldl (fun acc x => acc.updateItem x (fun it => { it with dirtyCount := 0 })) m
      from rfl]
    rw [findItem_foldUpdate m (syncSubItems m) u
      (fun it => { it with dirtyCount := 0 }) (fun it => rfl) (fun it => rfl),
      if_pos hu, h0]
    rfl
  have hclearlem : ∀ (m2 : ModelManager) (x2 : Str),
      (onSyncSuccessClear m2 (syncSubItems m)).findItem x2 =
        if x2 ∈ (syncSubItems m).filter (fun x =>
          match m2.findItem x with
          | some it => it.dirtyCount = 0
          | none => false) then
          ((m2.findItem x2).map (fun it => it.setDirty false))
        else m2.findItem x2 := by
    intro m2 x2
    rw [show onSyncSuccessClear m2 (syncSubItems m) =
      ((syncSubItems m).filter (fun x =>
        match m2.findItem x with
        | some it => it.dirtyCount = 0
        | none => false)).foldl
        (fun acc x => acc.updateItem x (fun it => it.setDirty false)) m2 from rfl]
    exact findItem_foldUpdate m2 _ x2 (fun it => it.setDirty false)
      (fun it => rfl) (fun it => rfl)
  constructor
  · by_cases he : u ∈ events
    · obtain ⟨it2, h2, hdt, hdc⟩ :=
        findItem_applyInFlight_mem _ events u he _ h1
      have hnotmem : ¬ u ∈ (syncSubItems m).filter (fun x =>
          match (applyInFlightDirtying (resetDirtyCounters m (syncSubItems m)) events).findItem x with
          | some it => it.dirtyCount = 0
          | none => false) := by
        rw [List.mem_filter]
        intro hcon
        have h5 := hcon.2
        simp only [h2, decide_eq_true_eq] at h5
        omega
      refine ⟨it2, ?_, by simp [hdt, he]⟩
      rw [hclearlem _ u, if_neg hnotmem, h2]
    · have h2 : (applyInFlightDirtying (resetDirtyCounters m (syncSubItems m)) events).findItem u =
          some { it0 with dirtyCount := 0 } := by
        rw [findItem_applyInFlight_not_mem _ _ _ he, h1]
      have hmem : u ∈ (syncSubItems m).filter (fun x =>
          match (applyInFlightDirtying (resetDirtyCounters m (syncSubItems m)) events).findItem x with
          | some it => it.dirtyCount = 0
          | none => false) := by
        rw [List.mem_filter]
        refine ⟨hu, ?_⟩
        simp only [h2]
        simp
      refine ⟨({ it0 with dirtyCount := 0 } : Item).setDirty false, ?_, by simp [Item.setDirty, he]⟩
      rw [hclearlem _ u, if_pos hmem, h2]
      rfl
  · intro u2 hu2
    rw [hclearlem _ u2]
    rw [if_neg ?_]
    rw [List.mem_filter]
    push_neg
    intro hmem
    exact absurd hmem hu2

/-- Witness for C5: a store with one dirty item submitted, re-dirtied by
an in-flight event targeting it, evaluated concretely. -/
theorem C5_sync_success_clears_exactly_unredirtied_witness :
    (∃ it,
      (onSyncSuccessClear
          (applyInFlightDirtying
            (resetDirtyCounters
              { items := [{ uuid := ['a'], content_type := some ['N'], refs := [], deleted := false
                            dirty := true, dirtyCount := 1, dummy := false, errorDecrypting := false
                            errorDecryptingValueChanged := false, created_at := 0, referencingObjects := [] }]
                itemsPendingRemoval := [], missedReferences := [], acceptableContentTypes := none }
              (syncSubItems
                { items := [{ uuid := ['a'], content_type := some ['N'], refs := [], deleted := false
                              dirty := true, dirtyCount := 1, dummy := false, errorDecrypting := false
                              errorDecryptingValueChanged := false, created_at := 0, referencingObjects := [] }]
                  itemsPendingRemoval := [], missedReferences := [], acceptableContentTypes := none }))
            [['a']])
          (syncSubItems
            { items := [{ uuid := ['a'], content_type := some ['N'], refs := [], deleted := false
                          dirty := true, dirtyCount := 1, dummy := false, errorDecrypting := false
                          errorDecryptingValueChanged := false, created_at := 0, referencingObjects := [] }]
              itemsPendingRemoval := [], missedReferences := [], acceptableContentTypes := none })).findItem ['a'] =
        some it ∧
      (it.dirty = true ↔ (['a'] : Str) ∈ [(['a'] : Str)])) ∧
    (∀ u2, ¬ u2 ∈ syncSubItems
        { items := [{ uuid := ['a'], content_type := some ['N'], refs := [], deleted := false
                      dirty := true, dirtyCount := 1, dummy := false, errorDecrypting := false
                      errorDecryptingValueChanged := false, created_at := 0, referencingObjects := [] }]
          itemsPendingRemoval := [], missedReferences := [], acceptableContentTypes := none } →
      (onSyncSuccessClear
          (applyInFlightDirtying
            (resetDirtyCounters
              { items := [{ uuid := ['a'], content_type := some ['N'], refs := [], deleted := false
                            dirty := true, dirtyCount := 1, dummy := false, errorDecrypting := false
                            errorDecryptingValueChanged := false, created_at := 0, referencingObjects := [] }]
                itemsPendingRemoval := [], missedReferences := [], acceptableContentTypes := none }
              (syncSubItems
                { items := [{ uuid := ['a'], content_type := some ['N'], refs := [], deleted := false
                              dirty := true, dirtyCount := 1, dummy := false, errorDecrypting := false
                              errorDecryptingValueChanged := false, created_at := 0, referencingObjects := [] }]
                  itemsPendingRemoval := [], missedReferences := [], acceptableContentTypes := none }))
            [['a']])
          (syncSubItems
            { items := [{ uuid := ['a'], content_type := some ['N'], refs := [], deleted := false
                          dirty := true, dirtyCount := 1, dummy := false, errorDecrypting := false
                          errorDecryptingValueChanged := false, created_at := 0, referencingObjects := [] }]
              itemsPendingRemoval := [], missedReferences := [], acceptableContentTypes := none })).findItem u2 =
        (applyInFlightDirtying
          (resetDirtyCounters
            { items := [{ uuid := ['a'], content_type := some ['N'], refs := [], deleted := false
                          dirty := true, dirtyCount := 1, dummy := false, errorDecrypting := false
                          errorDecryptingValueChanged := false, created_at := 0, referencingObjects := [] }]
              itemsPendingRemoval := [], missedReferences := [], acceptableContentTypes := none }
            (syncSubItems
              { items := [{ uuid := ['a'], content_type := some ['N'], refs := [], deleted := false
                            dirty := true, dirtyCount := 1, dummy := false, errorDecrypting := false
                            errorDecryptingValueChanged := false, created_at := 0, referencingObjects := [] }]
                itemsPendingRemoval := [], missedReferences := [], acceptableContentTypes := none }))
          [['a']]).findItem u2) :=
  C5_sync_success_clears_exactly_unredirtied
    { items := [{ uuid := ['a'], content_type := some ['N'], refs := [], deleted := false
                  dirty := true, dirtyCount := 1, dummy := false, errorDecrypting := false
                  errorDecryptingValueChanged := false, created_at := 0, referencingObjects := [] }]
      itemsPendingRemoval := [], missedReferences := [], acceptableContentTypes := none }
    [['a']] ['a'] (by decide) (by decide)

/-! ## Lemmas about UUID alternation -/

theorem find?_map_of_uuid_pres (l : List Item) (g : Item → Item) (w : Str)
    (hg : ∀ it, (g it).uuid = it.uuid) :
    (l.map g).find? (fun it => it.uuid = w) =
      (l.find? (fun it => it.uuid = w)).map g := by
  induction l with
  | nil => rfl
  | cons a rest ih =>
    by_cases ha : a.uuid = w
    · rw [List.map_cons, List.find?_cons_of_pos _ (by simp [hg, ha]),
          List.find?_cons_of_pos _ (by simp [ha])]
      rfl
    · rw [List.map_cons, List.find?_cons_of_neg _ (by simp [hg, ha]),
          List.find?_cons_of_neg _ (by simp [ha])]
      exact ih

theorem foldl_setDirty_fields (l : List Nat) (it : Item) :
    (l.foldl (fun acc _ => acc.setDirty true) it).uuid = it.uuid ∧
    (l.foldl (fun acc _ => acc.setDirty true) it).refs = it.refs ∧
    (l.foldl (fun acc _ => acc.setDirty true) it).referencingObjects =
      it.referencingObjects ∧
    (l.foldl (fun acc _ => acc.setDirty true) it).deleted = it.deleted := by
  induction l generalizing it with
  | nil => exact ⟨rfl, rfl, rfl, rfl⟩
  | cons x rest ih => simpa [Item.setDirty] using ih (it.setDirty true)

theorem foldl_setDirty_dirty (l : List Nat) (it : Item) (hl : l ≠ []) :
    (l.foldl (fun acc _ => acc.setDirty true) it).dirty = true := by
  induction l generalizing it with
  | nil => exact absurd rfl hl
  | cons x rest ih =>
    cases rest with
    | nil => simp [Item.setDirty]
    | cons y ys => exact ih (it.setDirty true) (by simp)

theorem poi_uuid (a b : Str) (it : Item) :
    (potentialItemOfInterest a b it).uuid = it.uuid := by
  unfold potentialItemOfInterest
  exact (foldl_setDirty_fields _ _).1

theorem poi_refs (a b : Str) (it : Item) :
    (potentialItemOfInterest a b it).refs =
      it.refs.map (fun r => if r = a then b else r) := by
  unfold potentialItemOfInterest
  exact (foldl_setDirty_fields _ _).2.1

theorem poi_refObjs (a b : Str) (it : Item) :
    (potentialItemOfInterest a b it).referencingObjects = it.referencingObjects := by
  unfold potentialItemOfInterest
  exact (foldl_setDirty_fields _ _).2.2.1

theorem poi_dirty_of_mem (a b : Str) (it : Item) (h : a ∈ it.refs) :
    (potentialItemOfInterest a b it).dirty = true := by
  unfold potentialItemOfInterest
  refine foldl_setDirty_dirty _ _ ?_
  simp only [ne_eq, List.range_eq_nil]
  have : 0 < it.refs.count a := List.count_pos_iff.mpr h
  omega

theorem findItem_informModels (m : ModelManager) (a b w : Str) :
    (m.informModelsOfUUIDChangeForItem a b).findItem w =
      (m.findItem w).map (potentialItemOfInterest a b) := by
  simp only [ModelManager.informModelsOfUUIDChangeForItem, ModelManager.findItem]
  exact find?_map_of_uuid_pres _ _ _ (poi_uuid a b)

theorem setIsNoLonger_find_other (m : ModelManager) (xU byU w : Str)
    (hw : ¬ xU = w) :
    (m.setIsNoLongerBeingReferencedBy xU byU).findItem w = m.findItem w := by
  unfold ModelManager.setIsNoLongerBeingReferencedBy
  cases hfx : (m.updateItem xU (fun x =>
      { x with referencingObjects := x.referencingObjects.filter (fun r => ¬ r = byU) })).findItem xU with
  | none =>
    simp only [hfx]
    rw [findItem_updateItem _ _ _ _ (by intro it; rfl), if_neg hw]
  | some x =>
    simp only [hfx]
    by_cases hc : x.hasRelationshipWith byU = true
    · rw [if_pos hc]
      rw [findItem_updateItem _ _ _ _ (by intro it; rfl), if_neg hw]
      rw [findItem_updateItem _ _ _ _ (by intro it; rfl), if_neg hw]
    · rw [if_neg hc]
      rw [findItem_updateItem _ _ _ _ (by intro it; rfl), if_neg hw]

theorem setIsNoLonger_find_self_norefs (m : ModelManager) (xU byU : Str)
    (x : Item) (hx : m.findItem xU = some x) (hno : ¬ byU ∈ x.refs) :
    (m.setIsNoLongerBeingReferencedBy xU byU).findItem xU =
      some { x with referencingObjects := x.referencingObjects.filter (fun r => ¬ r = byU) } := by
  unfold ModelManager.setIsNoLongerBeingReferencedBy
  have hfa : (m.updateItem xU (fun x =>
      { x with referencingObjects := x.referencingObjects.filter (fun r => ¬ r = byU) })).findItem xU =
      some { x with referencingObjects := x.referencingObjects.filter (fun r => ¬ r = byU) } := by
    rw [findItem_updateItem _ _ _ _ (by intro it; rfl), if_pos rfl, hx]
    rfl
  simp only [hfa]
  have hrel : ¬ ({ x with referencingObjects :=
      x.referencingObjects.filter (fun r => ¬ r = byU) } : Item).hasRelationshipWith byU = true := by
    simp only [Item.hasRelationshipWith]
    simpa using hno
  rw [if_neg hrel]
  exact hfa

theorem findItem_some_uuid (m : ModelManager) (w : Str) (x : Item)
    (h : m.findItem w = some x) : x.uuid = w := by
  have := List.find?_some h
  simpa using this

theorem updateItem_not_found (m : ModelManager) (w : Str) (f : Item → Item)
    (h : m.findItem w = none) : m.updateItem w f = m := by
  obtain ⟨l, pr, mr, act⟩ := m
  simp only [ModelManager.updateItem, ModelManager.findItem] at *
  have hall := List.find?_eq_none.mp h
  congr 1
  have hpt : ∀ it ∈ l, (if it.uuid = w then f it else it) = it := by
    intro it hit
    rw [if_neg]
    simpa using hall it hit
  rw [List.map_congr_left hpt]
  exact List.map_id' l

theorem findItem_filter_keep (l : List Item) (u w : Str) (hne : ¬ u = w) :
    (l.filter (fun z => ¬ z.uuid = u)).find? (fun z => z.uuid = w) =
      l.find? (fun z => z.uuid = w) := by
  induction l with
  | nil => rfl
  | cons a rest ih =>
    by_cases hu : a.uuid = u
    · have haw : ¬ a.uuid = w := fun hw => hne (hu.symm.trans hw)
      rw [List.filter_cons_of_neg (by simpa using hu),
          List.find?_cons_of_neg _ (by simpa using haw)]
      exact ih
    · rw [List.filter_cons_of_pos (by simpa using hu)]
      by_cases haw : a.uuid = w
      · rw [List.find?_cons_of_pos _ (by simpa using haw),
            List.find?_cons_of_pos _ (by simpa using haw)]
      · rw [List.find?_cons_of_neg _ (by simpa using haw),
            List.find?_cons_of_neg _ (by simpa using haw)]
        exact ih

theorem poi_no_old (u newU : Str) (it : Item) (hnu : ¬ newU = u) :
    ¬ u ∈ (potentialItemOfInterest u newU it).refs := by
  rw [poi_refs]
  intro hmem
  obtain ⟨r, _, hr⟩ := List.mem_map.mp hmem
  by_cases h : r = u
  · rw [if_pos h] at hr; exact hnu hr
  · rw [if_neg h] at hr; exact h hr

theorem setIsBeingReferencedBy_uuid (it : Item) (b : Str) :
    (it.setIsBeingReferencedBy b).uuid = it.uuid := by
  unfold Item.setIsBeingReferencedBy
  split <;> rfl

theorem refBound_congr (a b : Str) (m m2 : ModelManager) (w : Str)
    (h : m2.findItem w = m.findItem w) :
    refBound a b m w → refBound a b m2 w := by
  rintro ⟨r, hr, h1, h2, h3⟩
  exact ⟨r, h ▸ hr, h1, h2, h3⟩

theorem visit_of_not_found (m : ModelManager) (u : Str) (nI : Item) (w : Str)
    (h : m.findItem w = none) :
    alternateVisitReferencingObject m u nI w = (m, nI.setIsBeingReferencedBy w) := by
  simp only [alternateVisitReferencingObject, ModelManager.setIsNoLongerBeingReferencedBy]
  simp only [updateItem_not_found m w _ h, h]

theorem visit_snd (m : ModelManager) (u : Str) (nI : Item) (w : Str) :
    (alternateVisitReferencingObject m u nI w).2 = nI.setIsBeingReferencedBy w := by
  simp only [alternateVisitReferencingObject]

theorem visit_find_other (m : ModelManager) (u : Str) (nI : Item) (w w0 : Str)
    (hne : ¬ w = w0) :
    ((alternateVisitReferencingObject m u nI w).1).findItem w0 = m.findItem w0 := by
  simp only [alternateVisitReferencingObject]
  cases hmid : (m.setIsNoLongerBeingReferencedBy w u).findItem w with
  | none =>
    simp only [hmid]
    rw [findItem_updateItem _ _ _ _ (by intro it; rfl), if_neg hne,
        setIsNoLonger_find_other m w u w0 hne]
  | some r =>
    simp only [hmid]
    by_cases hrel : r.hasRelationshipWith (nI.setIsBeingReferencedBy w).uuid = true
    · rw [if_pos hrel]
      rw [findItem_updateItem _ _ _ _ (by intro it; rfl), if_neg hne,
          setIsNoLonger_find_other m w u w0 hne]
    · rw [if_neg hrel]
      rw [findItem_updateItem _ _ _ _ (by intro it; rfl), if_neg hne]
      rw [findItem_updateItem _ _ _ _ (by intro it; rfl), if_neg hne,
          setIsNoLonger_find_other m w u w0 hne]

theorem visit_find_self (m : ModelManager) (u : Str) (nI : Item) (w : Str)
    (r : Item) (hr : m.findItem w = some r) (hnou : ¬ u ∈ r.refs) :
    ∃ r2, ((alternateVisitReferencingObject m u nI w).1).findItem w = some r2 ∧
      nI.uuid ∈ r2.refs ∧
      (∀ z ∈ r2.refs, z ∈ r.refs ∨ z = nI.uuid) ∧
      r2.dirty = true := by
  have hself := setIsNoLonger_find_self_norefs m w u r hr hnou
  simp only [alternateVisitReferencingObject, hself, setIsBeingReferencedBy_uuid]
  by_cases hrel : ({ r with referencingObjects :=
      r.referencingObjects.filter (fun z => ¬ z = u) } : Item).hasRelationshipWith nI.uuid = true
  · rw [if_pos hrel]
    refine ⟨({ r with referencingObjects := r.referencingObjects.filter (fun z => ¬ z = u) } : Item).setDirty true, ?_, ?_, ?_, rfl⟩
    · rw [findItem_updateItem _ _ _ (fun q => q.setDirty true) (by intro it; rfl),
          if_pos rfl, hself]
      rfl
    · simpa [Item.hasRelationshipWith, Item.setDirty] using hrel
    · intro z hz
      exact Or.inl (by simpa [Item.setDirty] using hz)
  · rw [if_neg hrel]
    have hstep : ((m.setIsNoLongerBeingReferencedBy w u).updateItem w
        (fun q => { q with refs := q.refs ++ [nI.uuid] })).findItem w =
        some { r with referencingObjects := r.referencingObjects.filter (fun z => ¬ z = u),
                      refs := r.refs ++ [nI.uuid] } := by
      rw [findItem_updateItem _ _ _ (fun q => { q with refs := q.refs ++ [nI.uuid] })
            (by intro it; rfl), if_pos rfl, hself]
      rfl
    refine ⟨({ r with referencingObjects := r.referencingObjects.filter (fun z => ¬ z = u), refs := r.refs ++ [nI.uuid] } : Item).setDirty true, ?_, ?_, ?_, rfl⟩
    · rw [findItem_updateItem _ _ _ (fun q => q.setDirty true) (by intro it; rfl),
          if_pos rfl, hstep]
      rfl
    · simp [Item.setDirty]
    · intro z hz
      simp only [Item.setDirty, List.mem_append, List.mem_singleton] at hz
      rcases hz with hz | hz
      · exact Or.inl hz
      · exact Or.inr hz

theorem visit_meta (m : ModelManager) (u : Str) (nI : Item) (w : Str) :
    ((alternateVisitReferencingObject m u nI w).1).itemsPendingRemoval = m.itemsPendingRemoval ∧
    ((alternateVisitReferencingObject m u nI w).1).acceptableContentTypes = m.acceptableContentTypes := by
  simp only [alternateVisitReferencingObject, ModelManager.setIsNoLongerBeingReferencedBy,
    ModelManager.updateItem]
  repeat' split
  all_goals exact ⟨rfl, rfl⟩

theorem alternateLoop_meta (u : Str) (fuel : Nat) :
    ∀ (idx : Nat) (m : ModelManager) (nI : Item),
    (alternateLoop m u nI idx fuel).1.itemsPendingRemoval = m.itemsPendingRemoval ∧
    (alternateLoop m u nI idx fuel).1.acceptableContentTypes = m.acceptableContentTypes := by
  induction fuel with
  | zero => intro idx m nI; exact ⟨rfl, rfl⟩
  | succ fuel ih =>
    intro idx m nI
    simp only [alternateLoop]
    cases harr : (((m.findItem u).map (fun it => it.referencingObjects)).getD [])[idx]? with
    | none => exact ⟨rfl, rfl⟩
    | some w =>
      dsimp only
      cases hv : alternateVisitReferencingObject m u nI w with
      | mk m2 nI2 =>
        have hm := visit_meta m u nI w
        rw [hv] at hm
        have hrec := ih (idx + 1) m2 nI2
        exact ⟨hrec.1.trans hm.1, hrec.2.trans hm.2⟩

theorem alternateLoop_spec (u newU : Str) (x : Item) (fuel : Nat) :
    ∀ (idx : Nat) (m : ModelManager) (nI : Item),
    m.findItem u = some x →
    (∀ w ∈ x.referencingObjects, ¬ w = u) →
    (∀ w0 r0, m.findItem w0 = some r0 → ¬ u ∈ r0.refs) →
    nI.uuid = newU →
    ¬ newU = u →
    x.referencingObjects.length ≤ idx + fuel →
    (alternateLoop m u nI idx fuel).1.findItem u = some x ∧
    (alternateLoop m u nI idx fuel).2.uuid = newU ∧
    (∀ w, refBound u newU m w → refBound u newU (alternateLoop m u nI idx fuel).1 w) ∧
    (∀ w ∈ x.referencingObjects.drop idx, (m.findItem w).isSome = true →
      refBound u newU (alternateLoop m u nI idx fuel).1 w) ∧
    (∀ w0, m.findItem w0 = none → (alternateLoop m u nI idx fuel).1.findItem w0 = none) := by
  induction fuel with
  | zero =>
    intro idx m nI hm hA hQ hn hnu hfuel
    have hdrop : x.referencingObjects.drop idx = [] :=
      List.drop_eq_nil_of_le (by omega)
    refine ⟨hm, hn, fun w hw => hw, ?_, fun w0 h0 => h0⟩
    intro w hw
    rw [hdrop] at hw
    exact absurd hw (List.not_mem_nil w)
  | succ fuel ih =>
    intro idx m nI hm hA hQ hn hnu hfuel
    simp only [alternateLoop]
    have hE : ((m.findItem u).map (fun it => it.referencingObjects)).getD [] =
        x.referencingObjects := by
      simp [hm]
    rw [hE]
    cases harr : x.referencingObjects[idx]? with
    | none =>
      dsimp only
      have hidx : x.referencingObjects.length ≤ idx := List.getElem?_eq_none_iff.mp harr
      have hdrop : x.referencingObjects.drop idx = [] := List.drop_eq_nil_of_le hidx
      refine ⟨hm, hn, fun w hw => hw, ?_, fun w0 h0 => h0⟩
      intro w hw
      rw [hdrop] at hw
      exact absurd hw (List.not_mem_nil w)
    | some wi =>
      dsimp only
      have hwiMem : wi ∈ x.referencingObjects := List.getElem?_mem harr
      have hwiNe : ¬ wi = u := hA wi hwiMem
      have hidx : idx < x.referencingObjects.length := by
        by_contra hc
        rw [List.getElem?_eq_none_iff.mpr (by omega)] at harr
        exact Option.noConfusion harr
      have hdropcons : x.referencingObjects.drop idx =
          wi :: x.referencingObjects.drop (idx + 1) := by
        have hg := List.getElem?_eq_getElem hidx
        rw [harr] at hg
        rw [List.drop_eq_getElem_cons hidx, ← Option.some.inj hg]
      cases hv : alternateVisitReferencingObject m u nI wi with
      | mk m2 nI2 =>
      cases hrfind : m.findItem wi with
      | none =>
        have hvid := visit_of_not_found m u nI wi hrfind
        rw [hv] at hvid
        injection hvid with hm2 hn2
        rw [hm2, hn2]
        have hn9 : (nI.setIsBeingReferencedBy wi).uuid = newU := by
          rw [setIsBeingReferencedBy_uuid]; exact hn
        obtain ⟨c1, c2, c3, c4, c5⟩ :=
          ih (idx + 1) m (nI.setIsBeingReferencedBy wi) hm hA hQ hn9 hnu (by omega)
        refine ⟨c1, c2, c3, ?_, c5⟩
        intro w hw hsome
        rw [hdropcons] at hw
        rcases List.mem_cons.mp hw with hw | hw
        · subst hw
          rw [hrfind] at hsome
          exact absurd hsome (by simp)
        · exact c4 w hw hsome
      | some rfound =>
        have hnou : ¬ u ∈ rfound.refs := hQ wi rfound hrfind
        obtain ⟨r2, hfind2, hmem2, hsub2, hdirty2⟩ :=
          visit_find_self m u nI wi rfound hrfind hnou
        simp only [hv] at hfind2
        have hother : ∀ w0, ¬ wi = w0 → m2.findItem w0 = m.findItem w0 := by
          intro w0 hne
          have hvo := visit_find_other m u nI wi w0 hne
          simpa [hv] using hvo
        have hbwi : refBound u newU m2 wi := by
          refine ⟨r2, hfind2, ?_, ?_, hdirty2⟩
          · rw [← hn]; exact hmem2
          · intro hu
            rcases hsub2 u hu with hx2 | heq
            · exact hnou hx2
            · rw [hn] at heq; exact hnu heq.symm
        have hQ2 : ∀ w0 r0, m2.findItem w0 = some r0 → ¬ u ∈ r0.refs := by
          intro w0 r0 h0
          by_cases hww : wi = w0
          · subst hww
            have hre : r2 = r0 := Option.some.inj (hfind2.symm.trans h0)
            subst hre
            intro hu
            rcases hsub2 u hu with hx2 | heq
            · exact hnou hx2
            · rw [hn] at heq; exact hnu heq.symm
          · rw [hother w0 hww] at h0
            exact hQ w0 r0 h0
        have hm2find : m2.findItem u = some x := by
          rw [hother u hwiNe]
          exact hm
        have hn2u : nI2.uuid = newU := by
          have hvs := visit_snd m u nI wi
          simp only [hv] at hvs
          rw [hvs, setIsBeingReferencedBy_uuid]
          exact hn
        have hpres : ∀ w, refBound u newU m w → refBound u newU m2 w := by
          intro w hb
          by_cases hww : wi = w
          · subst hww; exact hbwi
          · exact refBound_congr u newU m m2 w (hother w hww) hb
        obtain ⟨c1, c2, c3, c4, c5⟩ :=
          ih (idx + 1) m2 nI2 hm2find hA hQ2 hn2u hnu (by omega)
        refine ⟨c1, c2, fun w hb => c3 w (hpres w hb), ?_, ?_⟩
        · intro w hw hsome
          rw [hdropcons] at hw
          rcases List.mem_cons.mp hw with hw | hw
          · rw [hw]
            exact c3 wi hbwi
          · by_cases hww : wi = w
            · rw [← hww]
              exact c3 wi hbwi
            · have hs2 : (m2.findItem w).isSome = true := by
                rw [hother w hww]; exact hsome
              exact c4 w hw hs2
        · intro w0 h0
          by_cases hww : wi = w0
          · subst hww
            rw [hrfind] at h0
            exact Option.noConfusion h0
          · exact c5 w0 (by rw [hother w0 hww]; exact h0)

theorem alternatePhase1_spec (m : ModelManager) (u newU : Str) (x0 : Item)
    (hx : m.findItem u = some x0)
    (hA : ∀ w ∈ x0.referencingObjects, ¬ w = u)
    (hnu : ¬ newU = u) :
    (alternatePhase1 m u newU).1.findItem u =
        some (potentialItemOfInterest u newU x0) ∧
    (∃ nI1, (alternatePhase1 m u newU).2 = some nI1 ∧ nI1.uuid = newU) ∧
    (∀ w ∈ x0.referencingObjects, (m.findItem w).isSome = true →
      refBound u newU (alternatePhase1 m u newU).1 w) ∧
    (∀ w0, m.findItem w0 = none → (alternatePhase1 m u newU).1.findItem w0 = none) ∧
    (alternatePhase1 m u newU).1.itemsPendingRemoval = m.itemsPendingRemoval ∧
    (alternatePhase1 m u newU).1.acceptableContentTypes = m.acceptableContentTypes := by
  have hm1 : ∀ w, (m.informModelsOfUUIDChangeForItem u newU).findItem w =
      (m.findItem w).map (potentialItemOfInterest u newU) :=
    fun w => findItem_informModels m u newU w
  have hx1 : (m.informModelsOfUUIDChangeForItem u newU).findItem u =
      some (potentialItemOfInterest u newU x0) := by
    rw [hm1, hx]
    rfl
  have hfuelE : ((((m.informModelsOfUUIDChangeForItem u newU).findItem u).map
      (fun it => it.referencingObjects.length)).getD 0) =
      (potentialItemOfInterest u newU x0).referencingObjects.length := by
    rw [hx1]
    rfl
  have hA1 : ∀ w ∈ (potentialItemOfInterest u newU x0).referencingObjects, ¬ w = u := by
    rw [poi_refObjs]
    exact hA
  have hQ1 : ∀ w0 r0, (m.informModelsOfUUIDChangeForItem u newU).findItem w0 = some r0 →
      ¬ u ∈ r0.refs := by
    intro w0 r0 h0
    rw [hm1] at h0
    cases hmw : m.findItem w0 with
    | none => rw [hmw] at h0; exact Option.noConfusion h0
    | some r =>
      rw [hmw] at h0
      have hpr : potentialItemOfInterest u newU r = r0 := Option.some.inj h0
      rw [← hpr]
      exact poi_no_old u newU r hnu
  obtain ⟨c1, c2, c3, c4, c5⟩ := alternateLoop_spec u newU (potentialItemOfInterest u newU x0)
      ((((m.informModelsOfUUIDChangeForItem u newU).findItem u).map
        (fun it => it.referencingObjects.length)).getD 0) 0
      (m.informModelsOfUUIDChangeForItem u newU)
      ({ x0 with uuid := newU, referencingObjects := [], dummy := false })
      hx1 hA1 hQ1 rfl hnu (by rw [hfuelE]; omega)
  have hmeta := alternateLoop_meta u
      ((((m.informModelsOfUUIDChangeForItem u newU).findItem u).map
        (fun it => it.referencingObjects.length)).getD 0) 0
      (m.informModelsOfUUIDChangeForItem u newU)
      ({ x0 with uuid := newU, referencingObjects := [], dummy := false })
  simp only [alternatePhase1, hx]
  refine ⟨c1, ⟨_, rfl, c2⟩, ?_, ?_, hmeta.1, hmeta.2⟩
  · intro w hw hsome
    obtain ⟨r, hr⟩ := Option.isSome_iff_exists.mp hsome
    refine c4 w ?_ ?_
    · rw [List.drop_zero, poi_refObjs]
      exact hw
    · rw [hm1, hr]
      rfl
  · intro w0 h0
    refine c5 w0 ?_
    rw [hm1, h0]
    rfl

theorem alternatePhase2_spec (m : ModelManager) (u newU : Str) (x0 : Item)
    (hx : m.findItem u = some x0)
    (hA : ∀ w ∈ x0.referencingObjects, ¬ w = u)
    (hnu : ¬ newU = u) :
    (∃ xr, (alternatePhase2 m u newU).1.findItem u = some xr ∧
      xr.uuid = u ∧ xr.refs = [] ∧ xr.deleted = true ∧ xr.dirty = false) ∧
    (∃ nI1, (alternatePhase2 m u newU).2 = some nI1 ∧ nI1.uuid = newU) ∧
    (∀ w ∈ x0.referencingObjects, (m.findItem w).isSome = true →
      refBound u newU (alternatePhase2 m u newU).1 w) ∧
    (∀ w0, ¬ w0 = u → m.findItem w0 = none →
      (alternatePhase2 m u newU).1.findItem w0 = none) ∧
    (alternatePhase2 m u newU).1.itemsPendingRemoval = m.itemsPendingRemoval ∧
    (alternatePhase2 m u newU).1.acceptableContentTypes = m.acceptableContentTypes := by
  obtain ⟨p1, ⟨nI1, hsnd, hn1⟩, p3, p4, p5, p6⟩ := alternatePhase1_spec m u newU x0 hx hA hnu
  have hx0u : x0.uuid = u := findItem_some_uuid m u x0 hx
  simp only [alternatePhase2, hsnd]
  refine ⟨⟨({ potentialItemOfInterest u newU x0 with
      deleted := true, refs := [] } : Item).setDirty false, ?_, ?_, rfl, rfl, rfl⟩,
    ⟨nI1, rfl, hn1⟩, ?_, ?_, p5, p6⟩
  · rw [findItem_updateItem (alternatePhase1 m u newU).1 u u _ (by intro it; rfl),
        if_pos rfl, p1]
    rfl
  · simp [Item.setDirty, poi_uuid, hx0u]
  · intro w hw hsome
    have hwne : ¬ w = u := hA w hw
    refine refBound_congr u newU (alternatePhase1 m u newU).1 _ w ?_ (p3 w hw hsome)
    rw [findItem_updateItem (alternatePhase1 m u newU).1 u w _ (by intro it; rfl),
        if_neg (fun hh => hwne hh.symm)]
  · intro w0 hne h0
    rw [findItem_updateItem (alternatePhase1 m u newU).1 u w0 _ (by intro it; rfl),
        if_neg (fun hh => hne hh.symm)]
    exact p4 w0 h0

theorem updateItem_acceptable (m : ModelManager) (v : Str) (f : Item → Item) :
    (m.updateItem v f).acceptableContentTypes = m.acceptableContentTypes := rfl

theorem updateItem_pendingRemoval (m : ModelManager) (v : Str) (f : Item → Item) :
    (m.updateItem v f).itemsPendingRemoval = m.itemsPendingRemoval := rfl

theorem findItem_mk_filter_none (m2 : ModelManager) (pnd : List Str)
    (mr : List (Str × MissedRef)) (act : Option (List Str)) (v : Str) :
    (ModelManager.mk (m2.items.filter (fun z => ¬ z.uuid = v)) pnd mr act).findItem v =
      none := by
  simp only [ModelManager.findItem]
  refine List.find?_eq_none.mpr ?_
  intro z hz
  have hz2 := (List.mem_filter.mp hz).2
  simpa using hz2

theorem findItem_mk_filter_keep (m2 : ModelManager) (pnd : List Str)
    (mr : List (Str × MissedRef)) (act : Option (List Str)) (v w : Str) (hne : ¬ w = v) :
    (ModelManager.mk (m2.items.filter (fun z => ¬ z.uuid = v)) pnd mr act).findItem w =
      m2.findItem w := by
  simp only [ModelManager.findItem]
  exact findItem_filter_keep m2.items v w (fun h => hne h.symm)

theorem mapper_retire_find (m : ModelManager) (x : Item)
    (hx : m.findItem x.uuid = some x)
    (hdel : x.deleted = true) (hdirty : x.dirty = false)
    (hpend : m.itemsPendingRemoval.contains x.uuid = false)
    (hact : m.acceptableContentTypes = none) :
    (m.mapResponseItemsToLocalModels [itemToRecord x]).findItem x.uuid = none ∧
    (∀ w, ¬ w = x.uuid →
      (m.mapResponseItemsToLocalModels [itemToRecord x]).findItem w = m.findItem w) := by
  simp only [ModelManager.mapResponseItemsToLocalModels, List.foldl_cons, List.foldl_nil,
    mapPassOne, itemToRecord, hx, hdel, hdirty, hact, hpend,
    updateItem_acceptable, updateItem_pendingRemoval,
    Option.getD_some, Option.isNone_some, not_true, and_false, false_and,
    Bool.false_eq_true, if_false, if_true, and_true, true_and,
    eq_self_iff_true, not_false_iff, ite_true, ite_false,
    List.zip_nil_left, List.map_nil, ModelManager.popMissedReferenceStructsForObjects,
    List.isEmpty_nil]
  constructor
  · rw [findItem_mk_filter_none]
  · intro w hne
    rw [findItem_mk_filter_keep _ _ _ _ _ _ hne,
        findItem_updateItem m x.uuid w _ (by intro it; rfl),
        if_neg (fun h => hne h.symm)]

theorem findItem_mk_append (m2 : ModelManager) (extra : List Item) (pnd : List Str)
    (mr : List (Str × MissedRef)) (act : Option (List Str)) (w : Str) :
    (ModelManager.mk (m2.items ++ extra) pnd mr act).findItem w =
      (m2.findItem w).or (extra.find? (fun z => z.uuid = w)) := by
  simp only [ModelManager.findItem]
  exact List.find?_append

/-- C6: running UUID alternation on the item stored under u with
replacement UUID newU leaves every referencing object R recorded in its
referencingObjects (and present in the store) referencing newU, no longer
referencing u, and dirty; the retired original has its references cleared
to empty with deleted true and dirty false; and after the whole procedure
the store holds no item under u while the replacement is present under
newU and dirty. -/
theorem C6_alternation_rebinds_referencing_objects
    (m : ModelManager) (u newU R : Str) (x0 : Item)
    (hx : m.findItem u = some x0)
    (hR : R ∈ x0.referencingObjects)
    (hRsome : (m.findItem R).isSome = true)
    (hA : ∀ w ∈ x0.referencingObjects, ¬ w = u)
    (hnu : ¬ newU = u)
    (hnew : m.findItem newU = none)
    (hpend : m.itemsPendingRemoval.contains u = false)
    (hact : m.acceptableContentTypes = none) :
    refBound u newU (m.alternateUUIDForItem u newU) R ∧
    (∃ xr, (alternatePhase2 m u newU).1.findItem u = some xr ∧
      xr.refs = [] ∧ xr.deleted = true ∧ xr.dirty = false) ∧
    (m.alternateUUIDForItem u newU).findItem u = none ∧
    (∃ xn, (m.alternateUUIDForItem u newU).findItem newU = some xn ∧ xn.dirty = true) := by
  obtain ⟨⟨xr, hfu, hxruuid, hxrrefs, hxrdel, hxrdirty⟩, ⟨nI1, hsnd, hn1⟩,
      hbound, hnone3, hpend3, hact3⟩ := alternatePhase2_spec m u newU x0 hx hA hnu
  have hRu : ¬ R = u := hA R hR
  have hxfind : (alternatePhase2 m u newU).1.findItem xr.uuid = some xr := by
    rw [hxruuid]; exact hfu
  have hpend2 : (alternatePhase2 m u newU).1.itemsPendingRemoval.contains xr.uuid = false := by
    rw [hpend3, hxruuid]; exact hpend
  have hact2 : (alternatePhase2 m u newU).1.acceptableContentTypes = none := by
    rw [hact3]; exact hact
  obtain ⟨hmapnone, hmapkeep⟩ :=
    mapper_retire_find (alternatePhase2 m u newU).1 xr hxfind hxrdel hxrdirty hpend2 hact2
  have hm3new : (alternatePhase2 m u newU).1.findItem newU = none := hnone3 newU hnu hnew
  have hm4u : ((alternatePhase2 m u newU).1.mapResponseItemsToLocalModels
      [itemToRecord xr]).findItem u = none := by
    have h := hmapnone
    rw [hxruuid] at h
    exact h
  have hm4new : ((alternatePhase2 m u newU).1.mapResponseItemsToLocalModels
      [itemToRecord xr]).findItem newU = none := by
    rw [hmapkeep newU (fun h => hnu (h.trans hxruuid))]
    exact hm3new
  obtain ⟨r1, hr1, hb1, hb2, hb3⟩ := hbound R hR hRsome
  have hRnew : ¬ R = newU := by
    intro h
    rw [h, hm3new] at hr1
    exact Option.noConfusion hr1
  have hm4R : ((alternatePhase2 m u newU).1.mapResponseItemsToLocalModels
      [itemToRecord xr]).findItem R = some r1 := by
    rw [hmapkeep R (fun h => hRu (h.trans hxruuid))]
    exact hr1
  have hns : ¬ (((alternatePhase2 m u newU).1.mapResponseItemsToLocalModels
      [itemToRecord xr]).findItem nI1.uuid).isSome = true := by
    rw [hn1, hm4new]
    simp
  simp only [ModelManager.alternateUUIDForItem, hsnd, hfu]
  rw [if_neg hns]
  have h5R : (ModelManager.mk
      (((alternatePhase2 m u newU).1.mapResponseItemsToLocalModels [itemToRecord xr]).items ++ [nI1])
      ((alternatePhase2 m u newU).1.mapResponseItemsToLocalModels [itemToRecord xr]).itemsPendingRemoval
      ((alternatePhase2 m u newU).1.mapResponseItemsToLocalModels [itemToRecord xr]).missedReferences
      ((alternatePhase2 m u newU).1.mapResponseItemsToLocalModels [itemToRecord xr]).acceptableContentTypes).findItem R = some r1 := by
    rw [findItem_mk_append, hm4R]
    rfl
  have h5u : (ModelManager.mk
      (((alternatePhase2 m u newU).1.mapResponseItemsToLocalModels [itemToRecord xr]).items ++ [nI1])
      ((alternatePhase2 m u newU).1.mapResponseItemsToLocalModels [itemToRecord xr]).itemsPendingRemoval
      ((alternatePhase2 m u newU).1.mapResponseItemsToLocalModels [itemToRecord xr]).missedReferences
      ((alternatePhase2 m u newU).1.mapResponseItemsToLocalModels [itemToRecord xr]).acceptableContentTypes).findItem u = none := by
    rw [findItem_mk_append, hm4u, List.find?_cons_of_neg _ (by simp [hn1]; exact fun h => hnu h)]
    rfl
  have h5new : (ModelManager.mk
      (((alternatePhase2 m u newU).1.mapResponseItemsToLocalModels [itemToRecord xr]).items ++ [nI1])
      ((alternatePhase2 m u newU).1.mapResponseItemsToLocalModels [itemToRecord xr]).itemsPendingRemoval
      ((alternatePhase2 m u newU).1.mapResponseItemsToLocalModels [itemToRecord xr]).missedReferences
      ((alternatePhase2 m u newU).1.mapResponseItemsToLocalModels [itemToRecord xr]).acceptableContentTypes).findItem newU = some nI1 := by
    rw [findItem_mk_append, hm4new, List.find?_cons_of_pos _ (by simp [hn1])]
    rfl
  refine ⟨⟨r1, ?_, hb1, hb2, hb3⟩, ⟨xr, rfl, hxrrefs, hxrdel, hxrdirty⟩, ?_, ?_⟩
  · rw [findItem_updateItem _ nI1.uuid R _ (by intro it; rfl),
        if_neg (fun h => hRnew (hn1 ▸ h).symm)]
    exact h5R
  · rw [findItem_updateItem _ nI1.uuid u _ (by intro it; rfl),
        if_neg (fun h => hnu (hn1.symm.trans h))]
    exact h5u
  · refine ⟨nI1.setDirty true, ?_, rfl⟩
    rw [findItem_updateItem _ nI1.uuid newU _ (by intro it; rfl), if_pos hn1, h5new]
    rfl

/-- The C6 theorem applied to a concrete two-item store: item x referenced
by item r, alternated to UUID n. -/
theorem C6_alternation_rebinds_referencing_objects_witness :
    refBound (['x']) (['n'])
      ((⟨[⟨['x'], some ['t'], [], false, false, 0, false, false, false, 0, [['r']]⟩,
          ⟨['r'], some ['t'], [['x']], false, false, 0, false, false, false, 0, []⟩],
         [], [], none⟩ : ModelManager).alternateUUIDForItem (['x']) (['n'])) (['r']) ∧
    (∃ xr, (alternatePhase2
        (⟨[⟨['x'], some ['t'], [], false, false, 0, false, false, false, 0, [['r']]⟩,
           ⟨['r'], some ['t'], [['x']], false, false, 0, false, false, false, 0, []⟩],
          [], [], none⟩ : ModelManager) (['x']) (['n'])).1.findItem (['x']) =
        some xr ∧ xr.refs = [] ∧ xr.deleted = true ∧ xr.dirty = false) ∧
    ((⟨[⟨['x'], some ['t'], [], false, false, 0, false, false, false, 0, [['r']]⟩,
        ⟨['r'], some ['t'], [['x']], false, false, 0, false, false, false, 0, []⟩],
       [], [], none⟩ : ModelManager).alternateUUIDForItem (['x']) (['n'])).findItem (['x']) =
      none ∧
    (∃ xn, ((⟨[⟨['x'], some ['t'], [], false, false, 0, false, false, false, 0, [['r']]⟩,
        ⟨['r'], some ['t'], [['x']], false, false, 0, false, false, false, 0, []⟩],
       [], [], none⟩ : ModelManager).alternateUUIDForItem (['x']) (['n'])).findItem (['n']) =
      some xn ∧ xn.dirty = true) :=
  C6_alternation_rebinds_referencing_objects _ (['x']) (['n']) (['r'])
    (⟨['x'], some ['t'], [], false, false, 0, false, false, false, 0, [['r']]⟩)
    (by decide) (by decide) (by decide) (by decide) (by decide) (by decide)
    (by decide) (by decide)

theorem flagKeeps_refl (m : ModelManager) : FlagKeeps m m :=
  fun _ z hz => ⟨z, hz, id, id, id⟩

theorem flagKeeps_trans {m1 m2 m3 : ModelManager}
    (h1 : FlagKeeps m1 m2) (h2 : FlagKeeps m2 m3) : FlagKeeps m1 m3 := by
  intro w z hz
  obtain ⟨za, hza, d1, d2, d3⟩ := h1 w z hz
  obtain ⟨zb, hzb, e1, e2, e3⟩ := h2 w za hza
  exact ⟨zb, hzb, fun h => e1 (d1 h), fun h => e2 (d2 h), fun h => e3 (d3 h)⟩

theorem flagKeeps_updateItem (m : ModelManager) (v : Str) (f : Item → Item)
    (hu : ∀ it, (f it).uuid = it.uuid)
    (hdel : ∀ it, it.deleted = true → (f it).deleted = true)
    (hdir : ∀ it, it.dirty = true → (f it).dirty = true)
    (hdum : ∀ it, it.dummy = false → (f it).dummy = false) :
    FlagKeeps m (m.updateItem v f) := by
  intro w z hz
  rw [findItem_updateItem m v w f hu]
  by_cases h : v = w
  · rw [if_pos h, hz]
    exact ⟨f z, rfl, hdel z, hdir z, hdum z⟩
  · rw [if_neg h]
    exact ⟨z, hz, id, id, id⟩

theorem flagKeeps_setIsNoLonger (m : ModelManager) (xU byU : Str) :
    FlagKeeps m (m.setIsNoLongerBeingReferencedBy xU byU) := by
  unfold ModelManager.setIsNoLongerBeingReferencedBy
  have h1 : FlagKeeps m (m.updateItem xU (fun x =>
      { x with referencingObjects := x.referencingObjects.filter (fun r => ¬ r = byU) })) :=
    flagKeeps_updateItem m xU _ (by intro it; rfl) (by intro it h; exact h) (by intro it h; exact h)
      (by intro it h; exact h)
  cases hf : (m.updateItem xU (fun x =>
      { x with referencingObjects := x.referencingObjects.filter (fun r => ¬ r = byU) })).findItem xU with
  | none => simp only [hf]; exact h1
  | some x =>
    simp only [hf]
    by_cases hrel : x.hasRelationshipWith byU = true
    · rw [if_pos hrel]
      refine flagKeeps_trans h1 (flagKeeps_updateItem _ xU _ (by intro it; rfl) ?_ ?_ ?_)
      · intro it h; exact h
      · intro it h; rfl
      · intro it h; exact h
    · rw [if_neg hrel]
      exact h1

theorem flagKeeps_removeItemAsRel (m : ModelManager) (a b : Str) :
    FlagKeeps m (m.removeItemAsRelationship a b) := by
  unfold ModelManager.removeItemAsRelationship
  exact flagKeeps_trans (flagKeeps_setIsNoLonger m b a)
    (flagKeeps_updateItem _ a _ (by intro it; rfl) (by intro it h; exact h) (by intro it h; exact h)
      (by intro it h; exact h))

theorem flagKeeps_removeRefObjsLoop (v : Str) (fuel : Nat) :
    ∀ (idx : Nat) (m : ModelManager), FlagKeeps m (removeRefObjsLoop m v idx fuel) := by
  induction fuel with
  | zero => intro idx m; exact flagKeeps_refl m
  | succ fuel ih =>
    intro idx m
    simp only [removeRefObjsLoop]
    cases harr : (((m.findItem v).map (fun it => it.referencingObjects)).getD [])[idx]? with
    | none => exact flagKeeps_refl m
    | some objUuid =>
      dsimp only
      refine flagKeeps_trans (flagKeeps_trans (flagKeeps_removeItemAsRel m objUuid v)
        (flagKeeps_updateItem _ objUuid _ (by intro it; rfl) (by intro it h; exact h)
          (by intro it h; rfl) (by intro it h; exact h))) (ih (idx + 1) _)

theorem flagKeeps_foldl {α : Type} (g : ModelManager → α → ModelManager) (l : List α)
    (hg : ∀ m a, FlagKeeps m (g m a)) : ∀ m, FlagKeeps m (l.foldl g m) := by
  induction l with
  | nil => intro m; exact flagKeeps_refl m
  | cons a rest ih => intro m; exact flagKeeps_trans (hg m a) (ih (g m a))

theorem flagKeeps_removeAndDirty (v : Str) (m : ModelManager) :
    FlagKeeps m (m.removeAndDirtyAllRelationshipsForItem v) := by
  unfold ModelManager.removeAndDirtyAllRelationshipsForItem
  refine flagKeeps_trans (flagKeeps_trans (flagKeeps_foldl _ _ ?_ m)
    (flagKeeps_removeRefObjsLoop v _ 0 _))
    (flagKeeps_updateItem _ v _ (by intro it; rfl) (by intro it h; exact h) (by intro it h; exact h)
      (by intro it h; exact h))
  intro acc r
  dsimp only
  cases h1 : acc.findItem r with
  | none => exact flagKeeps_refl acc
  | some q =>
    dsimp only
    cases h2 : (acc.removeItemAsRelationship v r).findItem r with
    | none => exact flagKeeps_removeItemAsRel acc v r
    | some rel2 =>
      dsimp only
      by_cases h3 : rel2.hasRelationshipWith v = true
      · rw [if_pos h3]
        refine flagKeeps_trans (flagKeeps_removeItemAsRel acc v r)
          (flagKeeps_trans (flagKeeps_removeItemAsRel _ r v)
            (flagKeeps_updateItem _ r _ (by intro it; rfl) (by intro it h; exact h)
              (by intro it h; rfl) (by intro it h; exact h)))
      · rw [if_neg h3]
        exact flagKeeps_removeItemAsRel acc v r

theorem flagKeeps_setItemToBeDeleted (m : ModelManager) (v : Str) :
    FlagKeeps m (m.setItemToBeDeleted v) := by
  unfold ModelManager.setItemToBeDeleted
  cases hf : m.findItem v with
  | none => exact flagKeeps_refl m
  | some it =>
    dsimp only
    by_cases hdum : ¬ it.dummy = true
    · rw [if_pos hdum]
      refine flagKeeps_trans (flagKeeps_trans
        (flagKeeps_updateItem m v _ (by intro x; rfl) (by intro x h; rfl) (by intro x h; exact h)
          (by intro x h; exact h))
        (flagKeeps_updateItem _ v _ (by intro x; rfl) (by intro x h; exact h) (by intro x h; rfl)
          (by intro x h; exact h)))
        (flagKeeps_removeAndDirty v _)
    · rw [if_neg hdum]
      exact flagKeeps_trans
        (flagKeeps_updateItem m v _ (by intro x; rfl) (by intro x h; rfl) (by intro x h; exact h)
          (by intro x h; exact h))
        (flagKeeps_removeAndDirty v _)

theorem setItemToBeDeleted_flags (m : ModelManager) (v : Str) (z0 : Item)
    (hz : m.findItem v = some z0) (hdum : z0.dummy = false) :
    ∃ z2, (m.setItemToBeDeleted v).findItem v = some z2 ∧
      z2.deleted = true ∧ z2.dirty = true := by
  unfold ModelManager.setItemToBeDeleted
  simp only [hz]
  rw [if_pos (by rw [hdum]; exact Bool.false_ne_true)]
  have hfind2 : ((m.updateItem v (fun x => { x with deleted := true })).updateItem v
      (fun x => x.setDirty true)).findItem v =
      some (({ z0 with deleted := true } : Item).setDirty true) := by
    rw [findItem_updateItem _ v v _ (by intro it; rfl), if_pos rfl,
        findItem_updateItem m v v _ (by intro it; rfl), if_pos rfl, hz]
    rfl
  obtain ⟨z2, hz2, hd, hdi, _⟩ := flagKeeps_removeAndDirty v _ v _ hfind2
  exact ⟨z2, hz2, hd rfl, hdi rfl⟩

theorem foldl_delete_flags (l : List Item) :
    ∀ (m : ModelManager) (z : Item), z ∈ l →
    ∀ z0, m.findItem z.uuid = some z0 → z0.dummy = false →
    ∃ z2, (l.foldl (fun acc d => acc.setItemToBeDeleted d.uuid) m).findItem z.uuid =
        some z2 ∧ z2.deleted = true ∧ z2.dirty = true := by
  induction l with
  | nil => intro m z hz; exact absurd hz (List.not_mem_nil z)
  | cons d rest ih =>
    intro m z hz z0 hfind hdum
    rw [List.foldl_cons]
    rcases List.mem_cons.mp hz with hzd | hzr
    · have hdu : d.uuid = z.uuid := by rw [hzd]
      rw [hdu]
      obtain ⟨z1, hz1, hd1, hdi1⟩ := setItemToBeDeleted_flags m z.uuid z0 hfind hdum
      obtain ⟨z2, hz2, hdd, hdird, _⟩ := flagKeeps_foldl
        (fun acc dd => acc.setItemToBeDeleted dd.uuid) rest
        (fun mm aa => flagKeeps_setItemToBeDeleted mm aa.uuid)
        (m.setItemToBeDeleted z.uuid) z.uuid z1 hz1
      exact ⟨z2, hz2, hdd hd1, hdird hdi1⟩
    · obtain ⟨z1, hz1, _, _, hdum1⟩ := flagKeeps_setItemToBeDeleted m d.uuid z.uuid z0 hfind
      exact ih (m.setItemToBeDeleted d.uuid) z hzr z1 hz1 (hdum1 hdum)

theorem insertByCreatedAt_perm (a : Item) (l : List Item) :
    (insertByCreatedAt a l).Perm (a :: l) := by
  induction l with
  | nil => exact List.Perm.refl [a]
  | cons b t ih =>
    unfold insertByCreatedAt
    by_cases h : a.created_at < b.created_at
    · rw [if_pos h]
    · rw [if_neg h]
      exact List.Perm.trans (List.Perm.cons b ih) (List.Perm.swap a b t)

theorem sortByCreatedAt_perm (l : List Item) : (sortByCreatedAt l).Perm l := by
  induction l with
  | nil => exact List.Perm.refl []
  | cons a t ih =>
    have hs : sortByCreatedAt (a :: t) = insertByCreatedAt a (sortByCreatedAt t) := rfl
    rw [hs]
    exact List.Perm.trans (insertByCreatedAt_perm a (sortByCreatedAt t)) (List.Perm.cons a ih)

theorem sortByCreatedAt_head_min (l : List Item) :
    ∀ w, (sortByCreatedAt l).head? = some w → ∀ z ∈ l, w.created_at ≤ z.created_at := by
  induction l with
  | nil => intro w hw; exact absurd hw (by simp [sortByCreatedAt])
  | cons a t ih =>
    intro w hw z hz
    have hsc : sortByCreatedAt (a :: t) = insertByCreatedAt a (sortByCreatedAt t) := rfl
    rw [hsc] at hw
    cases hst : sortByCreatedAt t with
    | nil =>
      rw [hst] at hw
      have hw2 : w = a := by simpa [insertByCreatedAt] using hw.symm
      have ht : t = [] := by
        have hlen := (sortByCreatedAt_perm t).length_eq
        rw [hst] at hlen
        exact List.length_eq_zero.mp hlen.symm
      rw [ht] at hz
      rcases List.mem_cons.mp hz with hza | hza
      · rw [hw2, hza]
      · exact absurd hza (List.not_mem_nil z)
    | cons b t2 =>
      rw [hst] at hw
      have hbmin : ∀ y ∈ t, b.created_at ≤ y.created_at := ih b (by rw [hst]; rfl)
      unfold insertByCreatedAt at hw
      by_cases hab : a.created_at < b.created_at
      · rw [if_pos hab] at hw
        have hw2 : w = a := by simpa using hw.symm
        rcases List.mem_cons.mp hz with hza | hza
        · rw [hw2, hza]
        · rw [hw2]
          exact le_of_lt (lt_of_lt_of_le hab (hbmin z hza))
      · rw [if_neg hab] at hw
        have hw2 : w = b := by simpa using hw.symm
        rcases List.mem_cons.mp hz with hza | hza
        · rw [hw2, hza]
          exact le_of_not_lt hab
        · rw [hw2]
          exact hbmin z hza

/-- C8: when the singleton resolver runs on sync completion with at least
one retrieved or saved item matching the predicate set and at least two
local items matching, the matching item with the least created_at is the
winner: it is bound to the handler and passed to resolutionCallback, a
sync is triggered, and every other matching item ends the pass marked
deleted and dirty in the store. -/
theorem C8_singleton_resolution (m : ModelManager) (sat : Item → Bool)
    (hs : Option Str) (hpc hcb : Bool)
    (retrievedItems savedItems : List Item) (initialLoad : Bool)
    (hnd : (m.items.map (fun x => x.uuid)).Nodup)
    (hmatch : 0 < (retrievedItems.filter sat).length ∨
      0 < (savedItems.filter sat).length)
    (h2 : 2 ≤ (m.itemsMatchingPred sat).length) :
    (resolveSingletonsHandler m sat hs hpc hcb retrievedItems savedItems
        initialLoad).syncCalled = true ∧
    ∃ w, w ∈ m.itemsMatchingPred sat ∧
      (∀ z ∈ m.itemsMatchingPred sat, w.created_at ≤ z.created_at) ∧
      (resolveSingletonsHandler m sat hs hpc hcb retrievedItems savedItems
        initialLoad).handlerSingleton = some w.uuid ∧
      (resolveSingletonsHandler m sat hs hpc hcb retrievedItems savedItems
        initialLoad).callbackArg = some w.uuid ∧
      (∀ z ∈ m.itemsMatchingPred sat, ¬ z.uuid = w.uuid →
        ∃ z2, (resolveSingletonsHandler m sat hs hpc hcb retrievedItems savedItems
          initialLoad).m.findItem z.uuid = some z2 ∧
          z2.deleted = true ∧ z2.dirty = true) := by
  simp only [resolveSingletonsHandler]
  rw [if_pos hmatch, if_pos h2]
  cases hsort : sortByCreatedAt (m.itemsMatchingPred sat) with
  | nil =>
    have hlen := (sortByCreatedAt_perm (m.itemsMatchingPred sat)).length_eq
    rw [hsort] at hlen
    simp only [List.length_nil] at hlen
    omega
  | cons w t =>
    refine ⟨rfl, w, ?_, ?_, rfl, rfl, ?_⟩
    · have hmem : w ∈ sortByCreatedAt (m.itemsMatchingPred sat) := by
        rw [hsort]
        exact List.mem_cons_self w t
      exact (sortByCreatedAt_perm (m.itemsMatchingPred sat)).mem_iff.mp hmem
    · exact sortByCreatedAt_head_min (m.itemsMatchingPred sat) w (by rw [hsort]; rfl)
    · intro z hzm hzw
      have hzs : z ∈ w :: t := by
        rw [← hsort]
        exact (sortByCreatedAt_perm (m.itemsMatchingPred sat)).mem_iff.mpr hzm
      rcases List.mem_cons.mp hzs with hzww | hzt
      · exact absurd (by rw [hzww]) hzw
      · have hzitems : z ∈ m.items ∧ z.dummy = false := by
          have h1 := hzm
          simp only [ModelManager.itemsMatchingPred, ModelManager.allItems,
            List.mem_filter] at h1
          exact ⟨h1.1.1, by simpa using h1.1.2⟩
        exact foldl_delete_flags t m z hzt z
          (findItem_eq_of_mem m z hzitems.1 hnd) hzitems.2

/-- The C8 theorem applied to a concrete store of two matching items with
created_at 1 and 2 and one retrieved match. -/
theorem C8_singleton_resolution_witness :
    (resolveSingletonsHandler
      (⟨[⟨['a'], some ['s'], [], false, false, 0, false, false, false, 1, []⟩,
         ⟨['b'], some ['s'], [], false, false, 0, false, false, false, 2, []⟩],
        [], [], none⟩ : ModelManager) (fun _ => true) none false false
      ([⟨['a'], some ['s'], [], false, false, 0, false, false, false, 1, []⟩]) []
      false).syncCalled = true ∧
    ∃ w, w ∈ (⟨[⟨['a'], some ['s'], [], false, false, 0, false, false, false, 1, []⟩,
         ⟨['b'], some ['s'], [], false, false, 0, false, false, false, 2, []⟩],
        [], [], none⟩ : ModelManager).itemsMatchingPred (fun _ => true) ∧
      (∀ z ∈ (⟨[⟨['a'], some ['s'], [], false, false, 0, false, false, false, 1, []⟩,
         ⟨['b'], some ['s'], [], false, false, 0, false, false, false, 2, []⟩],
        [], [], none⟩ : ModelManager).itemsMatchingPred (fun _ => true),
        w.created_at ≤ z.created_at) ∧
      (resolveSingletonsHandler
        (⟨[⟨['a'], some ['s'], [], false, false, 0, false, false, false, 1, []⟩,
           ⟨['b'], some ['s'], [], false, false, 0, false, false, false, 2, []⟩],
          [], [], none⟩ : ModelManager) (fun _ => true) none false false
        ([⟨['a'], some ['s'], [], false, false, 0, false, false, false, 1, []⟩]) []
        false).handlerSingleton = some w.uuid ∧
      (resolveSingletonsHandler
        (⟨[⟨['a'], some ['s'], [], false, false, 0, false, false, false, 1, []⟩,
           ⟨['b'], some ['s'], [], false, false, 0, false, false, false, 2, []⟩],
          [], [], none⟩ : ModelManager) (fun _ => true) none false false
        ([⟨['a'], some ['s'], [], false, false, 0, false, false, false, 1, []⟩]) []
        false).callbackArg = some w.uuid ∧
      (∀ z ∈ (⟨[⟨['a'], some ['s'], [], false, false, 0, false, false, false, 1, []⟩,
         ⟨['b'], some ['s'], [], false, false, 0, false, false, false, 2, []⟩],
        [], [], none⟩ : ModelManager).itemsMatchingPred (fun _ => true),
        ¬ z.uuid = w.uuid →
        ∃ z2, (resolveSingletonsHandler
          (⟨[⟨['a'], some ['s'], [], false, false, 0, false, false, false, 1, []⟩,
             ⟨['b'], some ['s'], [], false, false, 0, false, false, false, 2, []⟩],
            [], [], none⟩ : ModelManager) (fun _ => true) none false false
          ([⟨['a'], some ['s'], [], false, false, 0, false, false, false, 1, []⟩]) []
          false).m.findItem z.uuid = some z2 ∧
          z2.deleted = true ∧ z2.dirty = true) :=
  C8_singleton_resolution
    (⟨[⟨['a'], some ['s'], [], false, false, 0, false, false, false, 1, []⟩,
       ⟨['b'], some ['s'], [], false, false, 0, false, false, false, 2, []⟩],
      [], [], none⟩ : ModelManager) (fun _ => true) none false false
    ([⟨['a'], some ['s'], [], false, false, 0, false, false, false, 1, []⟩]) []
    false (by decide) (by decide) (by decide)

end SFJS
